import Mathlib

/-!
Verification of the Task Tree Store of the `your-daily-tasks` application.

The TypeScript source is shallowly embedded: pure functions become Lean
functions, React state updates become explicit state-passing, JavaScript
`Date` values are modelled by their UTC epoch-millisecond count (`Int`,
with `none`/`NaN` for an Invalid Date where the untyped universe needs
it), and the untyped JavaScript runtime values that flow through
`JSON.stringify` / `JSON.parse` and the import pipeline are modelled by
the inductive `JsVal` below.  The JSON *text* layer is abstracted by the
JSON AST: `JSON.parse (JSON.stringify x)` is the identity on the AST, so
serialisation functions return the AST of the produced document rather
than its text.  Host primitives (`Date.prototype.toJSON`,
`Date.prototype.toISOString`, `new Date(string)`, the ECMAScript
`SerializeJSONProperty` order in which `toJSON` runs *before* a
user-supplied replacer) are modelled from the ECMAScript specification,
since the repository does not define them.
-/

set_option autoImplicit false

namespace DailyTasks

/-! ## Task entity model — `src/types/task.ts` -/

/-- Status enumeration from `src/types/task.ts` line 1. -/
inductive TaskStatus where
  | todo
  | inProgress
  | blocked
  | done
deriving DecidableEq, Repr

/-- Priority enumeration from `src/types/task.ts` line 2. -/
inductive TaskPriority where
  | low
  | medium
  | high
  | urgent
deriving DecidableEq, Repr

/-- Recurrence type from `src/types/task.ts` line 3. -/
inductive RecurrenceType where
  | none
  | daily
  | weekly
  | monthly
deriving DecidableEq, Repr

/-- RecurrenceConfig from `src/types/task.ts`: `{type, interval}`. -/
structure RecurrenceConfig where
  type : RecurrenceType
  interval : Int
deriving DecidableEq, Repr

/-- TaskAttachment from `src/types/task.ts`; `createdAt` is a Date,
modelled as epoch milliseconds. -/
structure TaskAttachment where
  id : String
  name : String
  type : String
  url : String
  size : Int
  createdAt : Int
deriving DecidableEq, Repr

/-- TaskNote from `src/types/task.ts`. -/
structure TaskNote where
  id : String
  content : String
  attachments : List TaskAttachment
  createdAt : Int
  updatedAt : Int
  originTaskId : String
  originTaskTitle : String
deriving DecidableEq, Repr

/-- Task from `src/types/task.ts`.  `subTasks` makes this a nested
inductive; `null`-able fields are `Option`s and Dates are epoch
milliseconds.  Field order follows the interface declaration. -/
inductive Task where
  | mk
    (id : String)
    (title : String)
    (description : String)
    (status : TaskStatus)
    (priority : TaskPriority)
    (dueDate : Option Int)
    (completed : Bool)
    (notes : List TaskNote)
    (attachments : List TaskAttachment)
    (subTasks : List Task)
    (parentId : Option String)
    (depth : Int)
    (createdAt : Int)
    (projectId : Option String)
    (labelIds : List String)
    (recurrence : Option RecurrenceConfig)
deriving Repr

namespace Task

def id : Task → String
  | mk i _ _ _ _ _ _ _ _ _ _ _ _ _ _ _ => i

def title : Task → String
  | mk _ t _ _ _ _ _ _ _ _ _ _ _ _ _ _ => t

def description : Task → String
  | mk _ _ d _ _ _ _ _ _ _ _ _ _ _ _ _ => d

def status : Task → TaskStatus
  | mk _ _ _ s _ _ _ _ _ _ _ _ _ _ _ _ => s

def priority : Task → TaskPriority
  | mk _ _ _ _ p _ _ _ _ _ _ _ _ _ _ _ => p

def dueDate : Task → Option Int
  | mk _ _ _ _ _ d _ _ _ _ _ _ _ _ _ _ => d

def completed : Task → Bool
  | mk _ _ _ _ _ _ c _ _ _ _ _ _ _ _ _ => c

def notes : Task → List TaskNote
  | mk _ _ _ _ _ _ _ n _ _ _ _ _ _ _ _ => n

def attachments : Task → List TaskAttachment
  | mk _ _ _ _ _ _ _ _ a _ _ _ _ _ _ _ => a

def subTasks : Task → List Task
  | mk _ _ _ _ _ _ _ _ _ s _ _ _ _ _ _ => s

def parentId : Task → Option String
  | mk _ _ _ _ _ _ _ _ _ _ p _ _ _ _ _ => p

def depth : Task → Int
  | mk _ _ _ _ _ _ _ _ _ _ _ d _ _ _ _ => d

def createdAt : Task → Int
  | mk _ _ _ _ _ _ _ _ _ _ _ _ c _ _ _ => c

def projectId : Task → Option String
  | mk _ _ _ _ _ _ _ _ _ _ _ _ _ p _ _ => p

def labelIds : Task → List String
  | mk _ _ _ _ _ _ _ _ _ _ _ _ _ _ l _ => l

def recurrence : Task → Option RecurrenceConfig
  | mk _ _ _ _ _ _ _ _ _ _ _ _ _ _ _ r => r

end Task

/-- MAX_DEPTH from `src/types/task.ts` line 75. -/
def MAX_DEPTH : Int := 3


/-! ## Untyped JavaScript values

`JsVal` models the JavaScript runtime values that flow through
`JSON.stringify` / `JSON.parse` and the import pipeline: JSON data plus
`Date` instances.  A `Date` carries its time value in epoch
milliseconds, `none` standing for an Invalid Date (`NaN` time value).
Object fields are an association list in property order; keys are
unique (as they are on every JavaScript object), and `jsGetField`
returns the first match. -/
inductive JsVal where
  | null
  | bool (b : Bool)
  | num (n : Int)
  | str (s : String)
  | date (millis : Option Int)
  | arr (elems : List JsVal)
  | obj (fields : List (String × JsVal))
deriving Repr

mutual

/-- Structural equality on `JsVal` (deep value equality). -/
def JsVal.beq : JsVal → JsVal → Bool
  | .null, .null => true
  | .bool a, .bool b => a == b
  | .num a, .num b => a == b
  | .str a, .str b => a == b
  | .date a, .date b => a == b
  | .arr a, .arr b => JsVal.beqList a b
  | .obj a, .obj b => JsVal.beqFields a b
  | _, _ => false

/-- Elementwise `JsVal.beq` on lists. -/
def JsVal.beqList : List JsVal → List JsVal → Bool
  | [], [] => true
  | a :: as, b :: bs => JsVal.beq a b && JsVal.beqList as bs
  | _, _ => false

/-- Elementwise `JsVal.beq` on field lists. -/
def JsVal.beqFields : List (String × JsVal) → List (String × JsVal) → Bool
  | [], [] => true
  | (k, a) :: as, (l, b) :: bs => k == l && JsVal.beq a b && JsVal.beqFields as bs
  | _, _ => false

end

mutual

theorem JsVal.eq_of_beq : ∀ {a b : JsVal}, JsVal.beq a b = true → a = b
  | .null, .null, _ => rfl
  | .bool _, .bool _, h => by simp [JsVal.beq] at h; simp [h]
  | .num _, .num _, h => by simp [JsVal.beq] at h; simp [h]
  | .str _, .str _, h => by simp [JsVal.beq] at h; simp [h]
  | .date _, .date _, h => by simp [JsVal.beq] at h; simp [h]
  | .arr _, .arr _, h => by
      simp only [JsVal.beq] at h
      exact congrArg JsVal.arr (JsVal.eqList_of_beq h)
  | .obj _, .obj _, h => by
      simp only [JsVal.beq] at h
      exact congrArg JsVal.obj (JsVal.eqFields_of_beq h)
  | .null, .bool _, h => by simp [JsVal.beq] at h
  | .null, .num _, h => by simp [JsVal.beq] at h
  | .null, .str _, h => by simp [JsVal.beq] at h
  | .null, .date _, h => by simp [JsVal.beq] at h
  | .null, .arr _, h => by simp [JsVal.beq] at h
  | .null, .obj _, h => by simp [JsVal.beq] at h
  | .bool _, .null, h => by simp [JsVal.beq] at h
  | .bool _, .num _, h => by simp [JsVal.beq] at h
  | .bool _, .str _, h => by simp [JsVal.beq] at h
  | .bool _, .date _, h => by simp [JsVal.beq] at h
  | .bool _, .arr _, h => by simp [JsVal.beq] at h
  | .bool _, .obj _, h => by simp [JsVal.beq] at h
  | .num _, .null, h => by simp [JsVal.beq] at h
  | .num _, .bool _, h => by simp [JsVal.beq] at h
  | .num _, .str _, h => by simp [JsVal.beq] at h
  | .num _, .date _, h => by simp [JsVal.beq] at h
  | .num _, .arr _, h => by simp [JsVal.beq] at h
  | .num _, .obj _, h => by simp [JsVal.beq] at h
  | .str _, .null, h => by simp [JsVal.beq] at h
  | .str _, .bool _, h => by simp [JsVal.beq] at h
  | .str _, .num _, h => by simp [JsVal.beq] at h
  | .str _, .date _, h => by simp [JsVal.beq] at h
  | .str _, .arr _, h => by simp [JsVal.beq] at h
  | .str _, .obj _, h => by simp [JsVal.beq] at h
  | .date _, .null, h => by simp [JsVal.beq] at h
  | .date _, .bool _, h => by simp [JsVal.beq] at h
  | .date _, .num _, h => by simp [JsVal.beq] at h
  | .date _, .str _, h => by simp [JsVal.beq] at h
  | .date _, .arr _, h => by simp [JsVal.beq] at h
  | .date _, .obj _, h => by simp [JsVal.beq] at h
  | .arr _, .null, h => by simp [JsVal.beq] at h
  | .arr _, .bool _, h => by simp [JsVal.beq] at h
  | .arr _, .num _, h => by simp [JsVal.beq] at h
  | .arr _, .str _, h => by simp [JsVal.beq] at h
  | .arr _, .date _, h => by simp [JsVal.beq] at h
  | .arr _, .obj _, h => by simp [JsVal.beq] at h
  | .obj _, .null, h => by simp [JsVal.beq] at h
  | .obj _, .bool _, h => by simp [JsVal.beq] at h
  | .obj _, .num _, h => by simp [JsVal.beq] at h
  | .obj _, .str _, h => by simp [JsVal.beq] at h
  | .obj _, .date _, h => by simp [JsVal.beq] at h
  | .obj _, .arr _, h => by simp [JsVal.beq] at h

theorem JsVal.eqList_of_beq : ∀ {a b : List JsVal}, JsVal.beqList a b = true → a = b
  | [], [], _ => rfl
  | a :: as, b :: bs, h => by
      simp only [JsVal.beqList, Bool.and_eq_true] at h
      rw [JsVal.eq_of_beq h.1, JsVal.eqList_of_beq h.2]
  | [], _ :: _, h => by simp [JsVal.beqList] at h
  | _ :: _, [], h => by simp [JsVal.beqList] at h

theorem JsVal.eqFields_of_beq : ∀ {a b : List (String × JsVal)}, JsVal.beqFields a b = true → a = b
  | [], [], _ => rfl
  | (k, a) :: as, (l, b) :: bs, h => by
      simp only [JsVal.beqFields, Bool.and_eq_true] at h
      rw [JsVal.eq_of_beq h.1.2, JsVal.eqFields_of_beq h.2]
      rw [show k = l from by have := h.1.1; simpa using this]
  | [], _ :: _, h => by simp [JsVal.beqFields] at h
  | _ :: _, [], h => by simp [JsVal.beqFields] at h

end

mutual

theorem JsVal.beq_refl : ∀ (a : JsVal), JsVal.beq a a = true
  | .null => rfl
  | .bool _ => by simp [JsVal.beq]
  | .num _ => by simp [JsVal.beq]
  | .str _ => by simp [JsVal.beq]
  | .date _ => by simp [JsVal.beq]
  | .arr l => by simp only [JsVal.beq]; exact JsVal.beqList_refl l
  | .obj l => by simp only [JsVal.beq]; exact JsVal.beqFields_refl l

theorem JsVal.beqList_refl : ∀ (a : List JsVal), JsVal.beqList a a = true
  | [] => rfl
  | a :: as => by
      simp only [JsVal.beqList, Bool.and_eq_true]
      exact ⟨JsVal.beq_refl a, JsVal.beqList_refl as⟩

theorem JsVal.beqFields_refl : ∀ (a : List (String × JsVal)), JsVal.beqFields a a = true
  | [] => rfl
  | (k, a) :: as => by
      simp only [JsVal.beqFields, Bool.and_eq_true]
      exact ⟨⟨by simp, JsVal.beq_refl a⟩, JsVal.beqFields_refl as⟩

end

instance : DecidableEq JsVal := fun a b =>
  decidable_of_iff (JsVal.beq a b = true) ⟨JsVal.eq_of_beq, fun h => h ▸ JsVal.beq_refl a⟩

/-- Property access `fields[k]` on a JavaScript object; `none` models
`undefined` (absent property). -/
def jsGetField (fields : List (String × JsVal)) (k : String) : Option JsVal :=
  match fields with
  | [] => none
  | (k2, v) :: rest => if k2 = k then some v else jsGetField rest k


/-! ## Date and ISO-8601 machinery

These model the ECMAScript `Date` host primitives used by the source
(`toISOString`, `toJSON`, `new Date(...)`, `setDate`, `setMonth`).  The
host clock and time zone are modelled as UTC.  The civil-calendar
conversions follow the proleptic Gregorian calendar exactly as the
ECMAScript specification does. -/

/-- Gregorian civil date (year, month 1–12, day 1–31) from a count of
days since 1970-01-01. -/
def civilFromDays (z : Int) : Int × Nat × Nat :=
  let z2 : Int := z + 719468
  let era : Int := z2.ediv 146097
  let doe : Nat := (z2 - era * 146097).toNat
  let yoe : Nat := (doe - doe / 1460 + doe / 36524 - doe / 146096) / 365
  let y : Int := (yoe : Int) + era * 400
  let doy : Nat := doe - (365 * yoe + yoe / 4 - yoe / 100)
  let mp : Nat := (5 * doy + 2) / 153
  let d : Nat := doy - (153 * mp + 2) / 5 + 1
  let m : Nat := if mp < 10 then mp + 3 else mp - 9
  (if m ≤ 2 then y + 1 else y, m, d)

/-- Days since 1970-01-01 of the Gregorian civil date (y, m, d).  Like
the ECMAScript `MakeDay`, day values outside the month's length
normalise linearly into adjacent months. -/
def daysFromCivil (y : Int) (m : Nat) (d : Int) : Int :=
  let y2 : Int := y - (if m ≤ 2 then 1 else 0)
  let era : Int := y2.ediv 400
  let yoe : Nat := (y2 - era * 400).toNat
  let doy : Int := ((153 * (if m > 2 then m - 3 else m + 9) + 2) / 5 : Nat) + d - 1
  let doe : Int := (yoe * 365 + yoe / 4 - yoe / 100 : Nat) + doy
  era * 146097 + doe - 719468

/-- Number of days in month `m` of year `y`. -/
def daysInMonth (y : Int) (m : Nat) : Int :=
  if m = 12 then daysFromCivil (y + 1) 1 1 - daysFromCivil y 12 1
  else daysFromCivil y (m + 1) 1 - daysFromCivil y m 1

/-- Decimal rendering of `n` left-padded with zeros to `width` digits. -/
def padNum (width : Nat) (n : Nat) : String :=
  let s : String := toString n
  String.mk (List.replicate (width - s.length) '0') ++ s

/-- ECMAScript `Date.prototype.toISOString` on a time value in epoch
milliseconds (UTC): `YYYY-MM-DDTHH:MM:SS.sssZ`, with the expanded-year
form outside years 0–9999. -/
def isoOfMillis (t : Int) : String :=
  let days : Int := t.ediv 86400000
  let ms : Nat := (t - days * 86400000).toNat
  let c : Int × Nat × Nat := civilFromDays days
  let y : Int := c.1
  let mo : Nat := c.2.1
  let d : Nat := c.2.2
  let hh : Nat := ms / 3600000
  let mi : Nat := ms % 3600000 / 60000
  let ss : Nat := ms % 60000 / 1000
  let mmm : Nat := ms % 1000
  let ystr : String := if 0 ≤ y ∧ y ≤ 9999 then padNum 4 y.toNat
    else (if y < 0 then "-" else "+") ++ padNum 6 y.natAbs
  ystr ++ "-" ++ padNum 2 mo ++ "-" ++ padNum 2 d ++ "T" ++ padNum 2 hh ++
    ":" ++ padNum 2 mi ++ ":" ++ padNum 2 ss ++ "." ++ padNum 3 mmm ++ "Z"

/-- Numeric value of a decimal digit character. -/
def digitVal (c : Char) : Option Nat :=
  if c.isDigit then some (c.toNat - 48) else none

/-- Reads two decimal digits from the front of a character list. -/
def read2 : List Char → Option (Nat × List Char)
  | a :: b :: r =>
    match digitVal a, digitVal b with
    | some da, some db => some (da * 10 + db, r)
    | _, _ => none
  | _ => none

/-- Reads three decimal digits from the front of a character list. -/
def read3 : List Char → Option (Nat × List Char)
  | a :: b :: c :: r =>
    match digitVal a, digitVal b, digitVal c with
    | some da, some db, some dc => some (da * 100 + db * 10 + dc, r)
    | _, _, _ => none
  | _ => none

/-- Reads four decimal digits from the front of a character list. -/
def read4 : List Char → Option (Nat × List Char)
  | a :: b :: r =>
    match digitVal a, digitVal b, read2 r with
    | some da, some db, some (dc, r2) => some (da * 1000 + db * 100 + dc, r2)
    | _, _, _ => none
  | _ => none

/-- Consumes one expected literal character. -/
def expectChar (c : Char) : List Char → Option (List Char)
  | c2 :: rest => if c2 = c then some rest else none
  | [] => none

/-- ECMAScript date-string parsing (`new Date(string)`) restricted to
the full ISO form `YYYY-MM-DDTHH:MM:SS.sssZ` produced by
`toISOString`; every other shape yields an Invalid Date (`none`).
Out-of-range components yield `none` as in the host parsers. -/
def parseISOmillis (s : String) : Option Int :=
  match read4 s.toList with
  | none => none
  | some (y, r1) =>
  match expectChar '-' r1 with
  | none => none
  | some r2 =>
  match read2 r2 with
  | none => none
  | some (mo, r3) =>
  match expectChar '-' r3 with
  | none => none
  | some r4 =>
  match read2 r4 with
  | none => none
  | some (d, r5) =>
  match expectChar 'T' r5 with
  | none => none
  | some r6 =>
  match read2 r6 with
  | none => none
  | some (hh, r7) =>
  match expectChar ':' r7 with
  | none => none
  | some r8 =>
  match read2 r8 with
  | none => none
  | some (mi, r9) =>
  match expectChar ':' r9 with
  | none => none
  | some r10 =>
  match read2 r10 with
  | none => none
  | some (ss, r11) =>
  match expectChar '.' r11 with
  | none => none
  | some r12 =>
  match read3 r12 with
  | none => none
  | some (mmm, r13) =>
  match expectChar 'Z' r13 with
  | none => none
  | some r14 =>
  if r14 = [] ∧ 1 ≤ mo ∧ mo ≤ 12 ∧ 1 ≤ d ∧ (d : Int) ≤ daysInMonth y mo ∧
      hh ≤ 23 ∧ mi ≤ 59 ∧ ss ≤ 59 then
    some (daysFromCivil y mo d * 86400000 +
      (hh * 3600000 + mi * 60000 + ss * 1000 + mmm : Nat))
  else none

/-- ECMAScript `new Date(x)` applied to the (possibly absent) argument
the reviver reads from `value.value`: strings are parsed, numbers are
taken as milliseconds, `null`/booleans coerce numerically, `undefined`
and non-primitive arguments give an Invalid Date. -/
def jsNewDate : Option JsVal → Option Int
  | some (.str s) => parseISOmillis s
  | some (.num n) => some n
  | some .null => some 0
  | some (.bool b) => some (if b then 1 else 0)
  | some (.date m) => m
  | some (.arr _) => none
  | some (.obj _) => none
  | none => none

/-- ECMAScript `Date.prototype.toJSON`: an Invalid Date serialises to
`null`, a valid one to its `toISOString`.  On every non-`Date` value the
step is the identity. -/
def jsToJSONStep : JsVal → JsVal
  | .date (some m) => .str (isoOfMillis m)
  | .date none => .null
  | v => v


/-! ## JSON serialisation — `src/hooks/useTaskStorage.ts` lines 98–116

`serializeTasks` is `JSON.stringify(tasks, replacer)` and
`deserializeTasks` is `JSON.parse(json, reviver)`.  Following the
ECMAScript `SerializeJSONProperty` algorithm, for every visited value
the `toJSON` method (which `Date.prototype` has) is invoked *before*
the user replacer is applied; the resulting tree is then serialised
structurally.  `jsonVisit` is that traversal with the per-value step
abstracted over what happens at a `Date` leaf — the only value class
whose step is not the identity: plain objects and arrays have no
`toJSON` and are returned unchanged by the source's replacer, so the
traversal recurses into them directly. -/

mutual

/-- Structural `JSON.stringify` traversal with the `Date`-leaf step
abstracted (see the section comment). -/
def jsonVisit (onDate : Option Int → JsVal) : JsVal → JsVal
  | .null => .null
  | .bool b => .bool b
  | .num n => .num n
  | .str s => .str s
  | .date dm => onDate dm
  | .arr l => .arr (jsonVisitList onDate l)
  | .obj fs => .obj (jsonVisitFields onDate fs)

/-- Array part of `jsonVisit`. -/
def jsonVisitList (onDate : Option Int → JsVal) : List JsVal → List JsVal
  | [] => []
  | v :: rest => jsonVisit onDate v :: jsonVisitList onDate rest

/-- Object part of `jsonVisit`. -/
def jsonVisitFields (onDate : Option Int → JsVal) :
    List (String × JsVal) → List (String × JsVal)
  | [] => []
  | (k, v) :: rest => (k, jsonVisit onDate v) :: jsonVisitFields onDate rest

end

/-- The replacer function passed to `JSON.stringify` by
`serializeTasks` (`useTaskStorage.ts` lines 100–105, duplicated in
`useHistoryStorage.ts` lines 22–29): `value instanceof Date` values
become the tagged object `{__type: "Date", value: value.toISOString()}`
and everything else is returned unchanged.  (An Invalid Date would make
`toISOString` throw; no pipeline here ever passes one.) -/
def dateReplacer : JsVal → JsVal
  | .date (some m) => .obj [("__type", .str "Date"), ("value", .str (isoOfMillis m))]
  | v => v

/-- AST-level `JSON.stringify(·, replacer)` of `serializeTasks`: at a
`Date` leaf ECMAScript applies `toJSON` first — turning the `Date` into
its ISO *string* — and only then the replacer, whose
`instanceof Date` test therefore never fires. -/
def serializeTasksAst (v : JsVal) : JsVal :=
  jsonVisit (fun dm => dateReplacer (jsToJSONStep (.date dm))) v

/-- AST-level `JSON.parse(JSON.stringify(x))`, the deep-copy idiom of
`useHistoryStorage.ts` (lines 85, 105, 189, 203): no replacer and no
reviver, so a `Date` leaf becomes its `toJSON` ISO string and nothing
turns it back. -/
def jsonDeepCopy (v : JsVal) : JsVal :=
  jsonVisit (fun dm => jsToJSONStep (.date dm)) v

/-- The reviver step of `deserializeTasks` (`useTaskStorage.ts` lines
110–115, duplicated in `loadFromFolder`): an object whose `__type`
property is `"Date"` becomes `new Date(value.value)`; every other
value is returned unchanged. -/
def jsonReviverStep : JsVal → JsVal
  | .obj fs =>
    match jsGetField fs "__type" with
    | some (.str t) =>
      if t = "Date" then .date (jsNewDate (jsGetField fs "value")) else .obj fs
    | _ => .obj fs
  | v => v

mutual

/-- AST-level `JSON.parse(json, reviver)`: the reviver runs bottom-up
on every parsed value; on primitives and arrays it is the identity
(`value.__type` is `undefined` there). -/
def jsonParseRevive : JsVal → JsVal
  | .null => .null
  | .bool b => .bool b
  | .num n => .num n
  | .str s => .str s
  | .date dm => .date dm
  | .arr l => .arr (jsonParseReviveList l)
  | .obj fs => jsonReviverStep (.obj (jsonParseReviveFields fs))

/-- Array part of `jsonParseRevive`. -/
def jsonParseReviveList : List JsVal → List JsVal
  | [] => []
  | v :: rest => jsonParseRevive v :: jsonParseReviveList rest

/-- Object part of `jsonParseRevive`. -/
def jsonParseReviveFields : List (String × JsVal) → List (String × JsVal)
  | [] => []
  | (k, v) :: rest => (k, jsonParseRevive v) :: jsonParseReviveFields rest

end

/-! ## The runtime value of a typed forest

A valid in-memory forest is a `List Task`; these functions give the
JavaScript runtime value it denotes, with `Date` fields as `Date`
instances and `null`-able fields as `null`.  Object keys follow the
`Task` interface declaration order of `src/types/task.ts`. -/

/-- Runtime value of a `TaskAttachment`. -/
def jsValOfAttachment (a : TaskAttachment) : JsVal :=
  .obj [("id", .str a.id), ("name", .str a.name), ("type", .str a.type),
    ("url", .str a.url), ("size", .num a.size),
    ("createdAt", .date (some a.createdAt))]

/-- Runtime value of a `TaskNote`. -/
def jsValOfNote (n : TaskNote) : JsVal :=
  .obj [("id", .str n.id), ("content", .str n.content),
    ("attachments", .arr (n.attachments.map jsValOfAttachment)),
    ("createdAt", .date (some n.createdAt)),
    ("updatedAt", .date (some n.updatedAt)),
    ("originTaskId", .str n.originTaskId),
    ("originTaskTitle", .str n.originTaskTitle)]

/-- Runtime value of an `Option String` field (`null` when absent). -/
def jsValOfOptStr : Option String → JsVal
  | some s => .str s
  | none => .null

/-- Enum string of a `TaskStatus`. -/
def statusString : TaskStatus → String
  | .todo => "todo"
  | .inProgress => "in-progress"
  | .blocked => "blocked"
  | .done => "done"

/-- Enum string of a `TaskPriority`. -/
def priorityString : TaskPriority → String
  | .low => "low"
  | .medium => "medium"
  | .high => "high"
  | .urgent => "urgent"

/-- Enum string of a `RecurrenceType`. -/
def recurrenceTypeString : RecurrenceType → String
  | .none => "none"
  | .daily => "daily"
  | .weekly => "weekly"
  | .monthly => "monthly"

/-- Runtime value of a `recurrence` field. -/
def jsValOfRecurrence : Option RecurrenceConfig → JsVal
  | some r => .obj [("type", .str (recurrenceTypeString r.type)),
      ("interval", .num r.interval)]
  | none => .null

mutual

/-- Runtime value of a `Task`. -/
def jsValOfTask : Task → JsVal
  | .mk id title description status priority dueDate completed notes
      attachments subTasks parentId depth createdAt projectId labelIds
      recurrence =>
    .obj [("id", .str id), ("title", .str title),
      ("description", .str description),
      ("status", .str (statusString status)),
      ("priority", .str (priorityString priority)),
      ("dueDate", match dueDate with
        | some t => .date (some t)
        | none => .null),
      ("completed", .bool completed),
      ("notes", .arr (notes.map jsValOfNote)),
      ("attachments", .arr (attachments.map jsValOfAttachment)),
      ("subTasks", .arr (jsValOfTaskList subTasks)),
      ("parentId", jsValOfOptStr parentId),
      ("depth", .num depth),
      ("createdAt", .date (some createdAt)),
      ("projectId", jsValOfOptStr projectId),
      ("labelIds", .arr (labelIds.map JsVal.str)),
      ("recurrence", jsValOfRecurrence recurrence)]

/-- Runtime value of a list of `Task`s. -/
def jsValOfTaskList : List Task → List JsVal
  | [] => []
  | t :: ts => jsValOfTask t :: jsValOfTaskList ts

end

/-- Runtime value of a whole forest. -/
def jsValOfForest (tasks : List Task) : JsVal :=
  .arr (jsValOfTaskList tasks)

/-- `serializeTasks` of `useTaskStorage.ts` lines 99–106 applied to a
typed forest, as the AST of the JSON document it produces. -/
def serializeTasks (tasks : List Task) : JsVal :=
  serializeTasksAst (jsValOfForest tasks)

/-- `deserializeTasks` of `useTaskStorage.ts` lines 109–116 applied to
the AST of a JSON document: the untyped value `JSON.parse` returns
after the reviver ran (the source then merely *casts* it to `Task[]`
without conversion). -/
def deserializeTasks (doc : JsVal) : JsVal :=
  jsonParseRevive doc


/-- Convenience: the `k` property of the first (object) element of an
array value. -/
def firstTaskField (v : JsVal) (k : String) : Option JsVal :=
  match v with
  | .arr (.obj fs :: _) => jsGetField fs k
  | _ => none

/-- A minimal valid task (creation time at the epoch) used as the
round-trip failing input. -/
def c1Task : Task :=
  .mk "t1" "Buy milk" "" .todo .medium none false [] [] [] none 0 0 none [] none

/-- Claim C1: the round trip `deserializeTasks (serializeTasks F)` is
claimed to return `F` with every Date field encoded as a
`{__type: "Date", value: ISO}` tagged object in the serialised text.
The code does not do this: ECMAScript invokes `Date.prototype.toJSON`
*before* the replacer runs, so the replacer's `value instanceof Date`
test never fires, every Date serialises as a bare ISO string, the
reviver finds no tagged objects, and the round trip of the one-task
forest `[c1Task]` returns its `createdAt` as that string instead of a
`Date`. -/
theorem serializeTasks_roundtrip_loses_dates :
    deserializeTasks (serializeTasks [c1Task]) ≠ jsValOfForest [c1Task] ∧
    firstTaskField (deserializeTasks (serializeTasks [c1Task])) "createdAt" =
      some (.str "1970-01-01T00:00:00.000Z") ∧
    firstTaskField (jsValOfForest [c1Task]) "createdAt" =
      some (.date (some 0)) := by
  decide

/-! ## Persistence reconciler — `src/hooks/useHistoryStorage.ts`

`HistorySettings` is the hook's settings state (lines 10–14), and
`saveToFolder` (lines 125–150) is modelled as a function of the
settings, the last-saved timestamp, and the outcome the host file
system gives the write: success, a `DOMException` named
`"NotAllowedError"` (permission revoked), or any other failure.  The
returned tuple is (new settings, returned boolean, toasts shown, new
last-saved timestamp); the source `throw`s nothing (every path is a
`return`) and attempts the write exactly once. -/

/-- AutoSaveMode from `useHistoryStorage.ts` line 8. -/
inductive AutoSaveMode where
  | everyChange
  | every5Minutes
  | manual
deriving DecidableEq, Repr

/-- HistorySettings from `useHistoryStorage.ts` lines 10–14; the
directory handle is opaque and modelled by its name. -/
structure HistorySettings where
  autoSaveMode : AutoSaveMode
  folderHandle : Option String
  folderName : Option String
deriving DecidableEq, Repr

/-- Outcome of the host write inside `saveToFolder`. -/
inductive WriteOutcome where
  | ok
  | notAllowedError
  | otherError
deriving DecidableEq, Repr

/-- The toast shown by `saveToFolder` on a permission failure
(`useHistoryStorage.ts` lines 142–146). -/
def folderAccessLostToast : String := "Folder access lost"

/-- saveToFolder from `useHistoryStorage.ts` lines 125–150. -/
def saveToFolder (settings : HistorySettings) (lastSaved : Int)
    (outcome : WriteOutcome) (now : Int) :
    HistorySettings × Bool × List String × Int :=
  match settings.folderHandle with
  | none => (settings, false, [], lastSaved)
  | some _ =>
    match outcome with
    | .ok => (settings, true, [], now)
    | .notAllowedError =>
      ({ settings with folderHandle := none, folderName := none },
        false, [folderAccessLostToast], lastSaved)
    | .otherError => (settings, false, [], lastSaved)

/-- Claim C8: a write to the external folder that fails with a
permission error downgrades to the disconnected state — handle and
display name both cleared — surfaces a user-visible notice, and
returns failure to the caller; `saveToFolder` neither throws (it is a
total function into its result tuple) nor retries (the write is
attempted once per call). -/
theorem saveToFolder_permission_failure_downgrades
    (s : HistorySettings) (ls now : Int) (h : s.folderHandle ≠ none) :
    saveToFolder s ls .notAllowedError now =
      ({ autoSaveMode := s.autoSaveMode, folderHandle := none,
          folderName := none },
        false, [folderAccessLostToast], ls) := by
  cases hh : s.folderHandle with
  | none => exact absurd hh h
  | some v => simp [saveToFolder, hh]

/-- Witness for C8 at a concrete connected settings value. -/
theorem saveToFolder_permission_failure_downgrades_witness :
    ({ autoSaveMode := .everyChange, folderHandle := some "backup",
        folderName := some "backup" } : HistorySettings).folderHandle ≠ none ∧
    saveToFolder
        { autoSaveMode := .everyChange, folderHandle := some "backup",
          folderName := some "backup" } 0 .notAllowedError 5 =
      ({ autoSaveMode := .everyChange, folderHandle := none,
          folderName := none },
        false, [folderAccessLostToast], 0) :=
  ⟨by decide,
    saveToFolder_permission_failure_downgrades
      { autoSaveMode := .everyChange, folderHandle := some "backup",
        folderName := some "backup" } 0 5 (by decide)⟩


/-! ## History manager — `src/hooks/useHistoryStorage.ts`

The hook state is the current forest (an untyped runtime value, since
everything it stores passes through `JSON.parse(JSON.stringify(...))`),
the snapshot list with its cursor, the `isUndoRedoAction` ref and the
settings.  React effects are modelled by running them explicitly after
the state update that triggers them: a forest mutation is `setTasks`
followed by the checkpoint effect of lines 91–122; `undo`/`redo`
(lines 185–210) set the exemption flag, restore the forest and move
the cursor, after which the triggered checkpoint effect merely
consumes the flag. -/

/-- HistoryState from `useHistoryStorage.ts` lines 16–19: one snapshot. -/
structure HistoryState where
  tasks : JsVal
  timestamp : Int
deriving DecidableEq, Repr

/-- MAX_HISTORY_SIZE from `useHistoryStorage.ts` line 6. -/
def MAX_HISTORY_SIZE : Nat := 20

/-- JavaScript `array[i]` indexing (negative or out-of-range gives
`undefined`). -/
def jsIndex {α : Type} (l : List α) (i : Int) : Option α :=
  if 0 ≤ i then l.get? i.toNat else none

/-- Mutable state of the `useHistoryStorage` hook. -/
structure HistoryHook where
  tasks : JsVal
  history : List HistoryState
  historyIndex : Int
  isUndoRedoAction : Bool
  settings : HistorySettings
deriving DecidableEq, Repr

/-- The checkpoint effect of `useHistoryStorage.ts` lines 91–122, run
after the forest state changed (`isLoaded` assumed): an undo/redo
restoration only consumes the exemption flag; a forest whose
serialisation equals the snapshot at the cursor is not checkpointed;
otherwise the snapshots after the cursor are truncated
(`prev.slice(0, historyIndex + 1)`, and the cursor is never below −1),
a deep copy of the forest is appended, the oldest snapshots beyond
`MAX_HISTORY_SIZE` are evicted (`slice(-MAX_HISTORY_SIZE)`), and the
cursor becomes `min (historyIndex + 1) (MAX_HISTORY_SIZE - 1)`. -/
def checkpointEffect (now : Int) (s : HistoryHook) : HistoryHook :=
  if s.isUndoRedoAction then { s with isUndoRedoAction := false }
  else
    let skip : Bool :=
      match jsIndex s.history s.historyIndex with
      | some st => serializeTasksAst st.tasks = serializeTasksAst s.tasks
      | none => false
    if skip then s
    else
      let newHistory : List HistoryState :=
        s.history.take (s.historyIndex + 1).toNat ++
          [{ tasks := jsonDeepCopy s.tasks, timestamp := now }]
      { s with
        history :=
          if newHistory.length > MAX_HISTORY_SIZE then
            newHistory.drop (newHistory.length - MAX_HISTORY_SIZE)
          else newHistory,
        historyIndex := min (s.historyIndex + 1) (MAX_HISTORY_SIZE - 1 : Nat) }

/-- A forest mutation as the store sees it: `setTasks` to the new
value, then the checkpoint effect triggered by the change. -/
def applyMutation (newTasks : JsVal) (now : Int) (s : HistoryHook) :
    HistoryHook :=
  checkpointEffect now { s with tasks := newTasks }

/-- canUndo from `useHistoryStorage.ts` line 382. -/
def canUndo (s : HistoryHook) : Prop := 0 < s.historyIndex

/-- canRedo from `useHistoryStorage.ts` line 383. -/
def canRedo (s : HistoryHook) : Prop :=
  s.historyIndex < (s.history.length : Int) - 1

instance (s : HistoryHook) : Decidable (canUndo s) := by
  unfold canUndo; infer_instance

instance (s : HistoryHook) : Decidable (canRedo s) := by
  unfold canRedo; infer_instance

/-- undo from `useHistoryStorage.ts` lines 185–196, including the
checkpoint effect its `setTasks` triggers (which, the exemption flag
being set, only clears the flag; its timestamp argument is unused on
that path).  The guarded `history[historyIndex - 1]` access cannot
miss while the cursor is within the list; an (unreachable) miss is
modelled as a no-op. -/
def undo (s : HistoryHook) : HistoryHook :=
  if 0 < s.historyIndex then
    match jsIndex s.history (s.historyIndex - 1) with
    | some prevState =>
      checkpointEffect 0
        { s with
          isUndoRedoAction := true
          tasks := jsonDeepCopy prevState.tasks
          historyIndex := s.historyIndex - 1 }
    | none => s
  else s

/-- redo from `useHistoryStorage.ts` lines 199–210, modelled like
`undo`. -/
def redo (s : HistoryHook) : HistoryHook :=
  if s.historyIndex < (s.history.length : Int) - 1 then
    match jsIndex s.history (s.historyIndex + 1) with
    | some nextState =>
      checkpointEffect 0
        { s with
          isUndoRedoAction := true
          tasks := jsonDeepCopy nextState.tasks
          historyIndex := s.historyIndex + 1 }
    | none => s
  else s


/-- One checkpointed mutation, spelt out: with the exemption flag
clear, no eviction pending, and the new forest serialising differently
from the snapshot at the cursor, `applyMutation` truncates after the
cursor, appends a deep copy, and advances the cursor. -/
theorem applyMutation_push (s : HistoryHook) (F : JsVal) (now : Int)
    (hflag : s.isUndoRedoAction = false)
    (hlen : s.history.length ≤ MAX_HISTORY_SIZE - 1)
    (hskip : ∀ st, jsIndex s.history s.historyIndex = some st →
      serializeTasksAst st.tasks ≠ serializeTasksAst F) :
    applyMutation F now s =
      { s with
        tasks := F
        history := s.history.take (s.historyIndex + 1).toNat ++
          [{ tasks := jsonDeepCopy F, timestamp := now }]
        historyIndex := min (s.historyIndex + 1) (MAX_HISTORY_SIZE - 1 : Nat) } := by
  unfold applyMutation checkpointEffect
  simp only [hflag, if_false, Bool.false_eq_true]
  have hskipv :
      (match jsIndex s.history s.historyIndex with
        | some st =>
          decide (serializeTasksAst st.tasks = serializeTasksAst F)
        | none => false) = false := by
    cases hj : jsIndex s.history s.historyIndex with
    | none => rfl
    | some st => simpa using hskip st hj
  have hlen2 :
      ¬ (s.history.take (s.historyIndex + 1).toNat ++
        [({ tasks := jsonDeepCopy F, timestamp := now } : HistoryState)]).length >
        MAX_HISTORY_SIZE := by
    have h1 : (s.history.take (s.historyIndex + 1).toNat).length ≤
        s.history.length := by
      simp
    simp only [List.length_append, List.length_cons, List.length_nil]
    simp only [MAX_HISTORY_SIZE] at hlen ⊢
    omega
  simp only [hskipv, Bool.false_eq_true, if_false, if_neg hlen2]

/-- Restoration step of `undo`, spelt out (shared by the history
theorems). -/
theorem undo_eq (s : HistoryHook) (snap : HistoryState)
    (h : 0 < s.historyIndex)
    (hget : jsIndex s.history (s.historyIndex - 1) = some snap) :
    undo s =
      { s with
        tasks := jsonDeepCopy snap.tasks
        historyIndex := s.historyIndex - 1
        isUndoRedoAction := false } := by
  unfold undo
  rw [if_pos h, hget]
  simp [checkpointEffect]

/-- Claim C9: while `canUndo` holds, `undo` changes only the current
forest — to the deep-copied snapshot at cursor − 1, hence to that very
snapshot whenever it is stable under the JSON deep copy, as every
snapshot the hook itself stored is — and the cursor; the snapshot
list, its length, and the autosave settings are untouched, and the
restoration is not recorded as a checkpoint (the triggered effect only
consumes the exemption flag).  Symmetrically for `redo` under
`canRedo`. -/
theorem undo_redo_frame :
    (∀ (s : HistoryHook) (snap : HistoryState), canUndo s →
      jsIndex s.history (s.historyIndex - 1) = some snap →
      undo s =
        { s with
          tasks := jsonDeepCopy snap.tasks
          historyIndex := s.historyIndex - 1
          isUndoRedoAction := false } ∧
      (jsonDeepCopy snap.tasks = snap.tasks → (undo s).tasks = snap.tasks)) ∧
    (∀ (s : HistoryHook) (snap : HistoryState), canRedo s →
      jsIndex s.history (s.historyIndex + 1) = some snap →
      redo s =
        { s with
          tasks := jsonDeepCopy snap.tasks
          historyIndex := s.historyIndex + 1
          isUndoRedoAction := false } ∧
      (jsonDeepCopy snap.tasks = snap.tasks → (redo s).tasks = snap.tasks)) := by
  constructor
  · intro s snap hcu hget
    have heq : undo s =
        { s with
          tasks := jsonDeepCopy snap.tasks
          historyIndex := s.historyIndex - 1
          isUndoRedoAction := false } := by
      have hcu2 : 0 < s.historyIndex := hcu
      unfold undo
      rw [if_pos hcu2, hget]
      simp [checkpointEffect]
    refine ⟨heq, fun hstable => ?_⟩
    rw [heq]
    exact hstable
  · intro s snap hcr hget
    have heq : redo s =
        { s with
          tasks := jsonDeepCopy snap.tasks
          historyIndex := s.historyIndex + 1
          isUndoRedoAction := false } := by
      have hcr2 : s.historyIndex < (s.history.length : Int) - 1 := hcr
      unfold redo
      rw [if_pos hcr2, hget]
      simp [checkpointEffect]
    refine ⟨heq, fun hstable => ?_⟩
    rw [heq]
    exact hstable

/-- Concrete two-snapshot state used to witness C9. -/
def c9State : HistoryHook :=
  { tasks := .arr []
    history :=
      [{ tasks := .arr [], timestamp := 0 },
        { tasks := .arr [.obj [("id", .str "a")]], timestamp := 1 },
        { tasks := .arr [.obj [("id", .str "b")]], timestamp := 2 }]
    historyIndex := 1
    isUndoRedoAction := false
    settings :=
      { autoSaveMode := .manual, folderHandle := none, folderName := none } }

/-- Witness for C9: both frame conditions at the concrete `c9State`. -/
theorem undo_redo_frame_witness :
    undo c9State =
      { c9State with
        tasks := .arr []
        historyIndex := 0
        isUndoRedoAction := false } ∧
    redo c9State =
      { c9State with
        tasks := .arr [.obj [("id", .str "b")]]
        historyIndex := 2
        isUndoRedoAction := false } := by
  have h1 := undo_redo_frame.1 c9State { tasks := .arr [], timestamp := 0 }
    (by decide) (by decide)
  have h2 := undo_redo_frame.2 c9State
    { tasks := .arr [.obj [("id", .str "b")]], timestamp := 2 }
    (by decide) (by decide)
  exact ⟨by rw [h1.1]; decide, by rw [h2.1]; decide⟩


/-- Claim C6 (amended): starting from history `[S0]` with the cursor
at 0, three mutations whose results serialise differently from their
predecessors and contain no `Date` instances (so that the JSON deep
copy stores them verbatim) leave the cursor at 3 with history
`[S0, S1, S2, S3]`; two `undo` calls restore the forest recorded for
mutation 1 — exactly the post-mutation-1 forest under the
date-free hypothesis — and move the cursor to 1; a further distinct
mutation truncates the discarded branch, giving history `[S0, S1, S4]`
with the cursor at 2 and `canRedo` false. -/
theorem history_three_mutations_undo_truncate
    (F0 F1 F2 F3 F4 : JsVal) (t0 t1 t2 t3 t4 : Int) (st : HistorySettings)
    (hF1 : jsonDeepCopy F1 = F1) (hF2 : jsonDeepCopy F2 = F2)
    (hF3 : jsonDeepCopy F3 = F3) (hF4 : jsonDeepCopy F4 = F4)
    (hd01 : serializeTasksAst F0 ≠ serializeTasksAst F1)
    (hd12 : serializeTasksAst F1 ≠ serializeTasksAst F2)
    (hd23 : serializeTasksAst F2 ≠ serializeTasksAst F3)
    (hd14 : serializeTasksAst F1 ≠ serializeTasksAst F4) :
    let s0 : HistoryHook := ⟨F0, [⟨F0, t0⟩], 0, false, st⟩
    let s3 := applyMutation F3 t3 (applyMutation F2 t2 (applyMutation F1 t1 s0))
    let u := undo (undo s3)
    let s4 := applyMutation F4 t4 u
    s3.historyIndex = 3 ∧
    s3.history.map HistoryState.tasks = [F0, F1, F2, F3] ∧
    u.tasks = F1 ∧
    u.historyIndex = 1 ∧
    s4.history.map HistoryState.tasks = [F0, F1, F4] ∧
    s4.historyIndex = 2 ∧
    ¬ canRedo s4 := by
  intro s0 s3 u s4
  have e1 : applyMutation F1 t1 s0 =
      ⟨F1, [⟨F0, t0⟩, ⟨F1, t1⟩], 1, false, st⟩ := by
    rw [applyMutation_push _ _ _ rfl (by norm_num [MAX_HISTORY_SIZE])
      (by intro st2 h; simp [jsIndex] at h; rw [← h]; exact hd01)]
    simp [s0, hF1, MAX_HISTORY_SIZE]
  have e2 : applyMutation F2 t2 (applyMutation F1 t1 s0) =
      ⟨F2, [⟨F0, t0⟩, ⟨F1, t1⟩, ⟨F2, t2⟩], 2, false, st⟩ := by
    rw [e1]
    rw [applyMutation_push _ _ _ rfl (by norm_num [MAX_HISTORY_SIZE])
      (by intro st2 h; simp [jsIndex] at h; rw [← h]; exact hd12)]
    simp [hF2, MAX_HISTORY_SIZE]
  have e3 : s3 =
      ⟨F3, [⟨F0, t0⟩, ⟨F1, t1⟩, ⟨F2, t2⟩, ⟨F3, t3⟩], 3, false, st⟩ := by
    show applyMutation F3 t3 (applyMutation F2 t2 (applyMutation F1 t1 s0)) = _
    rw [e2]
    rw [applyMutation_push _ _ _ rfl (by norm_num [MAX_HISTORY_SIZE])
      (by intro st2 h; simp [jsIndex] at h; rw [← h]; exact hd23)]
    simp [hF3, MAX_HISTORY_SIZE]
  have e4a : undo (⟨F3, [⟨F0, t0⟩, ⟨F1, t1⟩, ⟨F2, t2⟩, ⟨F3, t3⟩], 3,
        false, st⟩ : HistoryHook) =
      ⟨jsonDeepCopy F2, [⟨F0, t0⟩, ⟨F1, t1⟩, ⟨F2, t2⟩, ⟨F3, t3⟩], 2,
        false, st⟩ := by
    rw [undo_eq (⟨F3, [⟨F0, t0⟩, ⟨F1, t1⟩, ⟨F2, t2⟩, ⟨F3, t3⟩], 3,
        false, st⟩ : HistoryHook) ⟨F2, t2⟩ (by norm_num) rfl]
    norm_num
  have e4b : undo (⟨jsonDeepCopy F2, [⟨F0, t0⟩, ⟨F1, t1⟩, ⟨F2, t2⟩,
        ⟨F3, t3⟩], 2, false, st⟩ : HistoryHook) =
      ⟨F1, [⟨F0, t0⟩, ⟨F1, t1⟩, ⟨F2, t2⟩, ⟨F3, t3⟩], 1, false, st⟩ := by
    rw [undo_eq (⟨jsonDeepCopy F2, [⟨F0, t0⟩, ⟨F1, t1⟩, ⟨F2, t2⟩,
        ⟨F3, t3⟩], 2, false, st⟩ : HistoryHook) ⟨F1, t1⟩ (by norm_num) rfl]
    norm_num [hF1]
  have e4 : u = ⟨F1, [⟨F0, t0⟩, ⟨F1, t1⟩, ⟨F2, t2⟩, ⟨F3, t3⟩], 1,
      false, st⟩ := by
    show undo (undo s3) = _
    rw [e3, e4a, e4b]
  have e5 : s4 = ⟨F4, [⟨F0, t0⟩, ⟨F1, t1⟩, ⟨F4, t4⟩], 2, false, st⟩ := by
    show applyMutation F4 t4 u = _
    rw [e4]
    rw [applyMutation_push _ _ _ rfl (by norm_num [MAX_HISTORY_SIZE])
      (by intro st2 h; simp [jsIndex] at h; rw [← h]; exact hd14)]
    simp [hF4, MAX_HISTORY_SIZE]
  refine ⟨by rw [e3], by rw [e3]; rfl, by rw [e4], by rw [e4],
    by rw [e5]; rfl, by rw [e5], ?_⟩
  rw [e5]
  simp [canRedo]


/-- Small date-free forests used in the history scenarios. -/
def c6F0 : JsVal := .arr [.obj [("id", .str "a")]]

/-- Second history scenario forest. -/
def c6F1 : JsVal := .arr [.obj [("id", .str "b")], .obj [("id", .str "a")]]

/-- Third history scenario forest. -/
def c6F2 : JsVal := .arr [.obj [("id", .str "c")], .obj [("id", .str "a")]]

/-- Fourth history scenario forest. -/
def c6F3 : JsVal := .arr [.obj [("id", .str "d")]]

/-- Branch-discarding scenario forest. -/
def c6F4 : JsVal := .arr [.obj [("id", .str "e")]]

/-- Forest like `c6F1` but holding a `Date` instance, as a forest does
right after `addTask` sets `createdAt: new Date()`. -/
def c6F1date : JsVal :=
  .arr [.obj [("id", .str "b"), ("createdAt", .date (some 0))],
    .obj [("id", .str "a")]]

/-- Disconnected manual settings used in the history scenarios. -/
def c6Settings : HistorySettings :=
  { autoSaveMode := .manual, folderHandle := none, folderName := none }

/-- Witness for C6 (amended) at the concrete date-free run. -/
theorem history_three_mutations_undo_truncate_witness :
    let s0 : HistoryHook := ⟨c6F0, [⟨c6F0, 0⟩], 0, false, c6Settings⟩
    let s3 := applyMutation c6F3 3 (applyMutation c6F2 2
      (applyMutation c6F1 1 s0))
    let u := undo (undo s3)
    let s4 := applyMutation c6F4 4 u
    s3.historyIndex = 3 ∧
    s3.history.map HistoryState.tasks = [c6F0, c6F1, c6F2, c6F3] ∧
    u.tasks = c6F1 ∧
    u.historyIndex = 1 ∧
    s4.history.map HistoryState.tasks = [c6F0, c6F1, c6F4] ∧
    s4.historyIndex = 2 ∧
    ¬ canRedo s4 :=
  history_three_mutations_undo_truncate c6F0 c6F1 c6F2 c6F3 c6F4
    0 1 2 3 4 c6Settings (by decide) (by decide) (by decide) (by decide)
    (by decide) (by decide) (by decide) (by decide)

/-- Counterexample to C6 as stated: when a mutation result holds a
`Date` instance (`c6F1date`, as produced by `addTask`), the snapshot
taken of it is the JSON deep copy, which coerces the `Date` to its ISO
string; the cursor still moves exactly as claimed, but two `undo`
calls do *not* restore the forest to the state after mutation 1. -/
theorem history_restore_after_undo_not_exact :
    let s0 : HistoryHook := ⟨c6F0, [⟨c6F0, 0⟩], 0, false, c6Settings⟩
    let s3 := applyMutation c6F3 3 (applyMutation c6F2 2
      (applyMutation c6F1date 1 s0))
    let u := undo (undo s3)
    s3.historyIndex = 3 ∧
    u.historyIndex = 1 ∧
    u.tasks ≠ c6F1date := by
  decide


/-! ## Free-text search — `src/lib/searchUtils.ts` -/

/-- JavaScript `String.prototype.trim` (leading and trailing
whitespace removed), implemented structurally so that it evaluates by
kernel reduction. -/
def jsTrim (s : String) : String :=
  String.mk
    (((s.toList.dropWhile Char.isWhitespace).reverse.dropWhile
      Char.isWhitespace).reverse)

/-- JavaScript `String.prototype.toLowerCase` (character-wise simple
lowercasing, which agrees with the host on the ASCII range). -/
def jsToLowerCase (s : String) : String := String.mk (s.toList.map Char.toLower)

/-- Containment of `needle` at any position of `haystack`. -/
def strContains (needle : List Char) : List Char → Bool
  | [] => needle.isEmpty
  | c :: rest => needle.isPrefixOf (c :: rest) || strContains needle rest

/-- JavaScript `String.prototype.includes`: substring containment. -/
def jsIncludes (s sub : String) : Bool := strContains sub.toList s.toList

/-- matchesQuery from `searchUtils.ts` lines 6–8: case-insensitive
partial match. -/
def matchesQuery (text query : String) : Bool :=
  jsIncludes (jsToLowerCase text) (jsToLowerCase query)

/-- taskDirectlyMatches from `searchUtils.ts` lines 13–32: title,
non-empty description (string truthiness), or any note content. -/
def taskDirectlyMatches (t : Task) (q : String) : Bool :=
  matchesQuery t.title q ||
  (!(t.description == "") && matchesQuery t.description q) ||
  t.notes.any fun note => matchesQuery note.content q

/-- The `{ ...task, subTasks: [] }` spread of `searchUtils.ts` line 44. -/
def taskWithoutSubTasks : Task → Task
  | .mk id ti de st pr dd cp ns at2 _ pid dp ca pj lb rc =>
    .mk id ti de st pr dd cp ns at2 [] pid dp ca pj lb rc

mutual

/-- collectMatchingTasks from `searchUtils.ts` lines 38–55: in task
order, a directly matching task is emitted with its subtask list
emptied, and the traversal always recurses into non-empty subtask
lists; matches of descendants are emitted flat, after their ancestor's
own entry. -/
def collectMatchingTasks : List Task → String → List Task
  | [], _ => []
  | t :: ts, q => collectMatchingFrom t q ++ collectMatchingTasks ts q

/-- Loop body of `collectMatchingTasks` for one task: its own entry (if
it directly matches) followed by the matches collected from its
subtask list. -/
def collectMatchingFrom : Task → String → List Task
  | .mk id ti de st pr dd cp ns at2 sub pid dp ca pj lb rc, q =>
    (if taskDirectlyMatches
        (.mk id ti de st pr dd cp ns at2 sub pid dp ca pj lb rc) q then
      [taskWithoutSubTasks
        (.mk id ti de st pr dd cp ns at2 sub pid dp ca pj lb rc)]
    else []) ++
    (if sub.length > 0 then collectMatchingTasks sub q else [])

end

/-- filterTasksBySearch from `searchUtils.ts` lines 61–67: a blank
query returns the input; otherwise the flat list of direct matches. -/
def filterTasksBySearch (tasks : List Task) (query : String) : List Task :=
  if jsTrim query = "" then tasks else collectMatchingTasks tasks query

/-! ## Notebook flattening — `src/pages/Notebook.tsx` -/

/-- Element of the `flattenTasks` result (`Notebook.tsx` line 60):
a task together with its parent id and tree depth. -/
structure FlatTask where
  task : Task
  parentId : Option String
  depth : Int

mutual

/-- flattenTasks from `Notebook.tsx` lines 60–69: preorder traversal
of the forest, tagging each task with its parent and depth. -/
def flattenTasks : List Task → Option String → Int → List FlatTask
  | [], _, _ => []
  | t :: ts, pid, d => flattenOne t pid d ++ flattenTasks ts pid d

/-- Loop body of `flattenTasks` for one task. -/
def flattenOne : Task → Option String → Int → List FlatTask
  | .mk id ti de st pr dd cp ns at2 sub pid2 dp ca pj lb rc, pid, d =>
    ⟨.mk id ti de st pr dd cp ns at2 sub pid2 dp ca pj lb rc, pid, d⟩ ::
    (if sub.length > 0 then flattenTasks sub (some id) (d + 1) else [])

end

mutual

/-- Preorder characterisation of the search: `collectMatchingTasks`
returns exactly the directly matching tasks of the preorder traversal,
each with its subtask list emptied; the parent/depth tags of the
traversal are irrelevant to it. -/
theorem collectMatchingTasks_eq_flatten_filter :
    ∀ (ts : List Task) (q : String) (pid : Option String) (d : Int),
    collectMatchingTasks ts q =
      (((flattenTasks ts pid d).map FlatTask.task).filter
        (fun t => taskDirectlyMatches t q)).map taskWithoutSubTasks
  | [], _, _, _ => by simp [collectMatchingTasks, flattenTasks]
  | t :: ts, q, pid, d => by
    have ih1 := collectMatchingFrom_eq_flatten_filter t q pid d
    have ih2 := collectMatchingTasks_eq_flatten_filter ts q pid d
    simp only [collectMatchingTasks, flattenTasks, List.map_append,
      List.filter_append, ih1, ih2]

/-- Single-task part of the preorder characterisation. -/
theorem collectMatchingFrom_eq_flatten_filter :
    ∀ (t : Task) (q : String) (pid : Option String) (d : Int),
    collectMatchingFrom t q =
      (((flattenOne t pid d).map FlatTask.task).filter
        (fun t => taskDirectlyMatches t q)).map taskWithoutSubTasks
  | .mk id ti de st pr dd cp ns at2 sub pid2 dp ca pj lb rc, q, pid, d => by
    have ih : ∀ pid3 d3, collectMatchingTasks sub q =
        (((flattenTasks sub pid3 d3).map FlatTask.task).filter
          (fun t => taskDirectlyMatches t q)).map taskWithoutSubTasks :=
      fun pid3 d3 => collectMatchingTasks_eq_flatten_filter sub q pid3 d3
    have hg1 : (if sub.length > 0 then collectMatchingTasks sub q else []) =
        collectMatchingTasks sub q := by
      cases sub with
      | nil => simp [collectMatchingTasks]
      | cons a l => simp
    have hg2 : (if sub.length > 0 then
          flattenTasks sub (some id) (d + 1) else []) =
        flattenTasks sub (some id) (d + 1) := by
      cases sub with
      | nil => simp [flattenTasks]
      | cons a l => simp
    cases hm : taskDirectlyMatches
        (.mk id ti de st pr dd cp ns at2 sub pid2 dp ca pj lb rc) q with
    | false =>
      simp [collectMatchingFrom, flattenOne, hg1, hg2, hm,
        ih (some id) (d + 1)]
      rintro rfl
      simp [flattenTasks]
    | true =>
      simp [collectMatchingFrom, flattenOne, hg1, hg2, hm,
        ih (some id) (d + 1)]
      rintro rfl
      simp [flattenTasks]

end

/-- Claim C3 (amended): for a non-blank query the search result is
exactly the list of *directly* matching tasks — matching the query
case-insensitively in title, non-empty description, or a note — in
preorder, each returned with its subtask list excluded.  Descendant
matches at any depth are therefore found and returned flat, but an
ancestor that does not itself match is not returned on behalf of its
descendants. -/
theorem filterTasksBySearch_returns_direct_matches_flattened
    (tasks : List Task) (q : String) (h : ¬ jsTrim q = "") :
    filterTasksBySearch tasks q =
      (((flattenTasks tasks none 0).map FlatTask.task).filter
        (fun t => taskDirectlyMatches t q)).map taskWithoutSubTasks := by
  unfold filterTasksBySearch
  rw [if_neg h]
  exact collectMatchingTasks_eq_flatten_filter tasks q none 0

/-- Depth-2 subtask containing the query. -/
def c3Grandchild : Task :=
  .mk "c3gc" "contains needle here" "" .todo .medium none false [] [] []
    (some "c3child") 2 0 none [] none

/-- Intermediate subtask with no direct match. -/
def c3Child : Task :=
  .mk "c3child" "beta" "" .todo .medium none false [] []
    [c3Grandchild] (some "c3root") 1 0 none [] none

/-- Root task with no direct match whose depth-2 descendant matches. -/
def c3Root : Task :=
  .mk "c3root" "alpha" "" .todo .medium none false [] [] [c3Child]
    none 0 0 none [] none

/-- Witness for C3 (amended) at the concrete three-level forest: the
query is non-blank and the search returns exactly the flattened direct
matchers of the preorder traversal. -/
theorem filterTasksBySearch_returns_direct_matches_flattened_witness :
    ¬ jsTrim "needle" = "" ∧
    filterTasksBySearch [c3Root] "needle" =
      (((flattenTasks [c3Root] none 0).map FlatTask.task).filter
        (fun t => taskDirectlyMatches t "needle")).map taskWithoutSubTasks :=
  ⟨by decide,
    filterTasksBySearch_returns_direct_matches_flattened [c3Root] "needle"
      (by decide)⟩

/-- Counterexample to C3 as stated: with the query `"needle"` matched
only by the depth-2 descendant, the result is the flattened descendant
alone — the root task is *not* itself returned as a search result. -/
theorem search_root_not_returned_for_descendant_match :
    (filterTasksBySearch [c3Root] "needle").map Task.id = ["c3gc"] ∧
    c3Root.id = "c3root" ∧
    ¬ "c3root" ∈ (filterTasksBySearch [c3Root] "needle").map Task.id := by
  decide


/-! ## Recurrence engine — `getNextDueDate` (`src/types/task.ts` lines
101–118) and `toggleTask` (`src/pages/Index.tsx`, the project-enabled
version) -/

/-- ECMAScript `setMonth(getMonth() + k)` on a time value: calendar
month addition with `MakeDay`-style day-of-month overflow, preserving
the time of day (UTC model). -/
def addMonths (t : Int) (k : Int) : Int :=
  let days : Int := t.ediv 86400000
  let ms : Int := t - days * 86400000
  let c : Int × Nat × Nat := civilFromDays days
  let total : Int := c.1 * 12 + ((c.2.1 : Int) - 1) + k
  let y2 : Int := total.ediv 12
  let m2 : Nat := (total - y2 * 12).toNat + 1
  daysFromCivil y2 m2 (c.2.2 : Int) * 86400000 + ms

/-- getNextDueDate from `src/types/task.ts` lines 101–118: interval
days, weeks (`7 * interval` days) or calendar months are added to the
current due date, or to `now` when no due date is set; the `none` case
falls through the `switch` and returns the base date. -/
def getNextDueDate (currentDueDate : Option Int)
    (recurrence : RecurrenceConfig) (now : Int) : Int :=
  let baseDate : Int := currentDueDate.getD now
  match recurrence.type with
  | .daily => baseDate + recurrence.interval * 86400000
  | .weekly => baseDate + 7 * recurrence.interval * 86400000
  | .monthly => addMonths baseDate recurrence.interval
  | .none => baseDate

/-- The truthiness test `taskToToggle.recurrence &&
taskToToggle.recurrence.type !== "none"` of `Index.tsx`. -/
def recurrenceActive : Option RecurrenceConfig → Bool
  | some r =>
    match r.type with
    | .none => false
    | _ => true
  | none => false

/-- The `{ ...task, completed: true, status: "done", recurrence: null }`
update applied to the completed original recurring task. -/
def taskMarkDoneClearRecurrence : Task → Task
  | .mk id ti de _ pr dd _ ns at2 sub pid dp ca pj lb _ =>
    .mk id ti de .done pr dd true ns at2 sub pid dp ca pj lb none

/-- The plain toggle `{ ...task, completed: !task.completed, status:
!task.completed ? "done" : "todo" }`. -/
def taskToggleFlip : Task → Task
  | .mk id ti de _ pr dd cp ns at2 sub pid dp ca pj lb rc =>
    .mk id ti de (if !cp then .done else .todo) pr dd (!cp) ns at2 sub pid
      dp ca pj lb rc

/-- The per-subtask template copy `{ ...st, id: crypto.randomUUID(),
completed: false, status: "todo" }` of `Index.tsx`: only the id, the
completed flag and the status of the *direct* subtask change — its
notes, attachments and nested `subTasks` (with their ids and completion
state) are copied verbatim.  `uuid k` is the `k`-th fresh id drawn in
this toggle. -/
def resetSubTasksWithIds (uuid : Nat → String) (k : Nat) :
    List Task → List Task
  | [] => []
  | .mk _ ti de _ pr dd _ ns at2 sub pid dp ca pj lb rc :: rest =>
    .mk (uuid k) ti de .todo pr dd false ns at2 sub pid dp ca pj lb rc ::
      resetSubTasksWithIds uuid (k + 1) rest

/-- toggleTask from `Index.tsx` (`src/unnamed/part_004` lines
160–218): the toggled task is looked up in the *root* list; completing
it while its recurrence is set and not `"none"` spawns the next
occurrence at the front of the root list and marks the original
done with its recurrence cleared; otherwise the status is flipped in
place.  `uuid` supplies the successive `crypto.randomUUID()` results
and `now` the `new Date()` value. -/
def toggleTask (uuid : Nat → String) (now : Int) (id : String)
    (prev : List Task) : List Task :=
  match prev.find? (fun t => t.id == id) with
  | none => prev
  | some taskToToggle =>
    let isCompleting := !taskToToggle.completed
    if isCompleting && recurrenceActive taskToToggle.recurrence then
      match taskToToggle.recurrence with
      | some rec2 =>
        let nextDueDate := getNextDueDate taskToToggle.dueDate rec2 now
        let newTask : Task :=
          .mk (uuid 0) taskToToggle.title taskToToggle.description .todo
            taskToToggle.priority (some nextDueDate) false []
            taskToToggle.attachments
            (resetSubTasksWithIds uuid 1 taskToToggle.subTasks)
            taskToToggle.parentId taskToToggle.depth now
            taskToToggle.projectId taskToToggle.labelIds (some rec2)
        newTask ::
          prev.map fun t =>
            if t.id == id then taskMarkDoneClearRecurrence t else t
      | none => prev
    else
      prev.map fun t => if t.id == id then taskToggleFlip t else t


/-- Elementwise description of the subtask template copy: the `i`-th
direct subtask of the new occurrence carries the `(k+i)`-th fresh id
and reset status, while every other field — including its nested
`subTasks` with their old ids and completion state — is the verbatim
copy of the original. -/
theorem resetSubTasksWithIds_spec (uuid : Nat → String) :
    ∀ (k : Nat) (sts : List Task) (i : Nat) (st : Task),
    sts.get? i = some st →
    (resetSubTasksWithIds uuid k sts).get? i =
      some (.mk (uuid (k + i)) st.title st.description .todo st.priority
        st.dueDate false st.notes st.attachments st.subTasks st.parentId
        st.depth st.createdAt st.projectId st.labelIds st.recurrence)
  | _, [], i, st, h => by simp [List.get?] at h
  | k, s :: rest, 0, st, h => by
    cases s with
    | mk id ti de st2 pr dd cp ns at2 sub pid dp ca pj lb rc =>
      simp [List.get?] at h
      subst h
      simp [resetSubTasksWithIds, List.get?, Task.title, Task.description,
        Task.priority, Task.dueDate, Task.notes, Task.attachments,
        Task.subTasks, Task.parentId, Task.depth, Task.createdAt,
        Task.projectId, Task.labelIds, Task.recurrence]
  | k, s :: rest, i + 1, st, h => by
    simp only [List.get?] at h ⊢
    have ih := resetSubTasksWithIds_spec uuid (k + 1) rest i st h
    cases s with
    | mk id ti de st2 pr dd cp ns at2 sub pid dp ca pj lb rc =>
      simp only [resetSubTasksWithIds, List.get?]
      rw [ih]
      have : k + 1 + i = k + (i + 1) := by omega
      rw [this]

/-- Claim C4 (amended): toggling an incomplete root task whose
recurrence is set with a type other than `none` prepends exactly one
new task to the root list — fresh id, same title, description,
attachments, priority, parent, depth and project, empty notes, status
`todo`, due date `getNextDueDate` (the old due date, or `now` when
unset, advanced by `interval` days / weeks / calendar months), and the
same recurrence — and marks the original completed/done with its
recurrence cleared, leaving every other root task unchanged.  The
subtask template resets only the *direct* subtasks (fresh id, status
`todo`, incomplete); their own nested subtasks are copied verbatim,
keeping their old ids and completion state. -/
theorem toggleTask_recurrence_spawns_sibling
    (uuid : Nat → String) (now : Int) (tid : String) (prev : List Task)
    (t : Task) (rec2 : RecurrenceConfig)
    (hfind : prev.find? (fun u => u.id == tid) = some t)
    (hincomplete : t.completed = false)
    (hrec : t.recurrence = some rec2)
    (hactive : rec2.type ≠ .none) :
    toggleTask uuid now tid prev =
      Task.mk (uuid 0) t.title t.description .todo t.priority
        (some (getNextDueDate t.dueDate rec2 now)) false [] t.attachments
        (resetSubTasksWithIds uuid 1 t.subTasks) t.parentId t.depth now
        t.projectId t.labelIds (some rec2) ::
      prev.map
        (fun u => if u.id == tid then taskMarkDoneClearRecurrence u else u) ∧
    (∀ (k i : Nat) (st : Task), t.subTasks.get? i = some st →
      (resetSubTasksWithIds uuid k t.subTasks).get? i =
        some (.mk (uuid (k + i)) st.title st.description .todo st.priority
          st.dueDate false st.notes st.attachments st.subTasks st.parentId
          st.depth st.createdAt st.projectId st.labelIds st.recurrence)) := by
  have hra : recurrenceActive t.recurrence = true := by
    rw [hrec]
    cases rec2 with
    | mk rty rint => cases rty <;> simp_all [recurrenceActive]
  constructor
  · unfold toggleTask
    rw [hfind]
    simp only [hincomplete, Bool.not_false, hra, Bool.and_self, if_true]
    rw [hrec]
  · intro k i st h
    exact resetSubTasksWithIds_spec uuid k t.subTasks i st h

/-- Depth-2 completed subtask whose id and status survive the template
copy. -/
def c4Grand : Task :=
  .mk "c4g" "grand" "" .done .medium none true [] [] [] (some "c4s") 2 0
    none [] none

/-- Direct subtask of the recurring task. -/
def c4Child : Task :=
  .mk "c4s" "sub" "" .todo .medium none false [] [] [c4Grand]
    (some "c4root") 1 0 none [] none

/-- Incomplete recurring root task: daily recurrence with interval 2,
due 2025-01-01T00:00:00.000Z. -/
def c4Root : Task :=
  .mk "c4root" "water plants" "" .todo .medium (some 1735689600000) false
    [] [] [c4Child] none 0 0 none [] (some ⟨.daily, 2⟩)

/-- Fresh-id supply used in the concrete toggles. -/
def c4uuid : Nat → String := fun n => String.append "new-" (toString n)

/-- Witness for C4 (amended) at the concrete recurring task, including
the claim's worked example: daily recurrence due 2025-01-01 with
interval 2 yields a sibling due 2025-01-03. -/
theorem toggleTask_recurrence_spawns_sibling_witness :
    toggleTask c4uuid 0 "c4root" [c4Root] =
      Task.mk (c4uuid 0) c4Root.title c4Root.description .todo
        c4Root.priority
        (some (getNextDueDate c4Root.dueDate ⟨.daily, 2⟩ 0)) false []
        c4Root.attachments (resetSubTasksWithIds c4uuid 1 c4Root.subTasks)
        c4Root.parentId c4Root.depth 0 c4Root.projectId c4Root.labelIds
        (some ⟨.daily, 2⟩) ::
      [c4Root].map
        (fun u =>
          if u.id == "c4root" then taskMarkDoneClearRecurrence u else u) ∧
    getNextDueDate c4Root.dueDate ⟨.daily, 2⟩ 0 = 1735862400000 ∧
    isoOfMillis 1735862400000 = "2025-01-03T00:00:00.000Z" :=
  ⟨(toggleTask_recurrence_spawns_sibling c4uuid 0 "c4root" [c4Root] c4Root
      ⟨.daily, 2⟩ rfl rfl rfl (by decide)).1,
    by decide, by decide⟩

/-- Counterexample to C4 as stated: the spawned occurrence's direct
subtask gets a fresh id, but the depth-2 subtask below it is copied
verbatim — old id `"c4g"`, still completed with status `done` — so the
claimed "fresh ids for every copied node, reset to incomplete/todo"
fails. -/
theorem toggleTask_deep_subtask_kept_verbatim :
    ((toggleTask c4uuid 0 "c4root" [c4Root]).head?.map Task.id =
      some "new-0") ∧
    (((toggleTask c4uuid 0 "c4root" [c4Root]).head?.bind
        (fun t => t.subTasks.head?)).map Task.id = some "new-1") ∧
    ((((toggleTask c4uuid 0 "c4root" [c4Root]).head?.bind
        (fun t => t.subTasks.head?)).bind
        (fun t => t.subTasks.head?)).map Task.id = some "c4g") ∧
    ((((toggleTask c4uuid 0 "c4root" [c4Root]).head?.bind
        (fun t => t.subTasks.head?)).bind
        (fun t => t.subTasks.head?)).map Task.completed = some true) ∧
    ((((toggleTask c4uuid 0 "c4root" [c4Root]).head?.bind
        (fun t => t.subTasks.head?)).bind
        (fun t => t.subTasks.head?)).map Task.status = some .done) ∧
    c4Grand.id = "c4g" := by
  decide


/-! ## The completed ⇔ done invariant — claim C5

The remaining mutation paths it quantifies over:
`updateTaskRecursive`/`updateTask` (`Index.tsx` lines 229–249) applied
to the task `handleSave` builds (`TaskDetailDialog.tsx` lines
386–404), and the one-level subtask toggle (`DraggableTaskItem.tsx`
line 277 composed with `updateSubTasks`, `Index.tsx` lines 300–306). -/

/-- The `{ ...task, subTasks }` spread. -/
def setSubTasks : Task → List Task → Task
  | .mk id ti de st pr dd cp ns at2 _ pid dp ca pj lb rc, sub =>
    .mk id ti de st pr dd cp ns at2 sub pid dp ca pj lb rc

/-- The subtask toggle of `DraggableTaskItem.tsx` line 277 routed
through `updateSubTasks` of `Index.tsx`: flip the status of subtask
`sid` inside the root task `pid`. -/
def toggleSubTaskOf (pid sid : String) (tasks : List Task) : List Task :=
  tasks.map fun t =>
    if t.id == pid then
      setSubTasks t
        (t.subTasks.map fun st => if st.id == sid then taskToggleFlip st else st)
    else t

mutual

/-- updateTaskRecursive from `Index.tsx` lines 230–243: replace the
node with the saved task's id anywhere in the tree. -/
def updateTaskRecursive : List Task → Task → List Task
  | [], _ => []
  | t :: ts, updated =>
    updateTaskOne t updated :: updateTaskRecursive ts updated

/-- Loop body of `updateTaskRecursive` for one task. -/
def updateTaskOne : Task → Task → Task
  | .mk id ti de st pr dd cp ns at2 sub pid dp ca pj lb rc, updated =>
    if id == updated.id then updated
    else if sub.length > 0 then
      .mk id ti de st pr dd cp ns at2 (updateTaskRecursive sub updated)
        pid dp ca pj lb rc
    else .mk id ti de st pr dd cp ns at2 sub pid dp ca pj lb rc

end

/-- The task `handleSave` of `TaskDetailDialog.tsx` lines 386–404
passes to `onUpdate`: the dialog's edited fields over the original
task, with `completed` recomputed as `status === "done"`. -/
def dialogSave (t : Task) (ti de : String) (st : TaskStatus)
    (pr : TaskPriority) (lb : List String) (dd : Option Int)
    (ns : List TaskNote) (at2 : List TaskAttachment) (sub : List Task)
    (pj : Option String) : Task :=
  .mk t.id ti de st pr dd (st == .done) ns at2 sub t.parentId t.depth
    t.createdAt pj lb t.recurrence

mutual

/-- Invariant 3 of the data model: `completed` is true iff `status`
is `done`, at every node of the subtree. -/
def invTask : Task → Bool
  | .mk _ _ _ st _ _ cp _ _ sub _ _ _ _ _ _ =>
    (cp == (st == .done)) && invList sub

/-- Forest form of `invTask`. -/
def invList : List Task → Bool
  | [] => true
  | t :: ts => invTask t && invList ts

end

/-- A mapped forest keeps the invariant if the map does. -/
theorem invList_map (f : Task → Task)
    (hf : ∀ t, invTask t = true → invTask (f t) = true) :
    ∀ ts : List Task, invList ts = true → invList (ts.map f) = true
  | [], _ => rfl
  | t :: ts, h => by
    simp only [invList, Bool.and_eq_true] at h
    simp only [List.map_cons, invList, Bool.and_eq_true]
    exact ⟨hf t h.1, invList_map f hf ts h.2⟩

/-- Membership in an invariant forest gives an invariant task. -/
theorem invTask_of_mem :
    ∀ (ts : List Task) (t : Task), invList ts = true → t ∈ ts →
      invTask t = true
  | t2 :: ts, t, h, hm => by
    simp only [invList, Bool.and_eq_true] at h
    rcases List.mem_cons.mp hm with rfl | hm2
    · exact h.1
    · exact invTask_of_mem ts t h.2 hm2

/-- The plain status flip re-establishes the invariant at its node. -/
theorem invTask_taskToggleFlip (t : Task) (h : invTask t = true) :
    invTask (taskToggleFlip t) = true := by
  cases t with
  | mk id ti de st pr dd cp ns at2 sub pid dp ca pj lb rc =>
    simp only [invTask, Bool.and_eq_true] at h
    cases cp <;> simp [taskToggleFlip, invTask, h.2]

/-- Marking the original recurring task done re-establishes the
invariant at its node. -/
theorem invTask_taskMarkDone (t : Task) (h : invTask t = true) :
    invTask (taskMarkDoneClearRecurrence t) = true := by
  cases t with
  | mk id ti de st pr dd cp ns at2 sub pid dp ca pj lb rc =>
    simp only [invTask, Bool.and_eq_true] at h
    simp [taskMarkDoneClearRecurrence, invTask, h.2]

/-- The subtask template copy keeps the invariant: the reset direct
subtasks satisfy it trivially and the verbatim nested copies inherit
it. -/
theorem invList_resetSubTasks (uuid : Nat → String) :
    ∀ (k : Nat) (sts : List Task), invList sts = true →
      invList (resetSubTasksWithIds uuid k sts) = true
  | _, [], _ => rfl
  | k, .mk id ti de st pr dd cp ns at2 sub pid dp ca pj lb rc :: rest,
      h => by
    simp only [invList, invTask, Bool.and_eq_true] at h
    simp only [resetSubTasksWithIds, invList, invTask, Bool.and_eq_true]
    exact ⟨⟨rfl, h.1.2⟩, invList_resetSubTasks uuid (k + 1) rest h.2⟩

mutual

/-- `updateTaskRecursive` keeps the invariant when the saved task
satisfies it. -/
theorem invList_updateTaskRecursive :
    ∀ (ts : List Task) (updated : Task), invList ts = true →
      invTask updated = true →
      invList (updateTaskRecursive ts updated) = true
  | [], _, _, _ => rfl
  | t :: ts, updated, h, hu => by
    simp only [invList, Bool.and_eq_true] at h
    simp only [updateTaskRecursive, invList, Bool.and_eq_true]
    exact ⟨invTask_updateTaskOne t updated h.1 hu,
      invList_updateTaskRecursive ts updated h.2 hu⟩

/-- Single-task part of `invList_updateTaskRecursive`. -/
theorem invTask_updateTaskOne :
    ∀ (t : Task) (updated : Task), invTask t = true →
      invTask updated = true →
      invTask (updateTaskOne t updated) = true
  | .mk id ti de st pr dd cp ns at2 sub pid dp ca pj lb rc, updated,
      h, hu => by
    simp only [invTask, Bool.and_eq_true] at h
    by_cases hid : (id == updated.id) = true
    · simp only [updateTaskOne, hid, if_true]
      exact hu
    · simp only [updateTaskOne, hid, if_false, Bool.false_eq_true]
      by_cases hlen : sub.length > 0
      · simp only [hlen, if_true, invTask, Bool.and_eq_true]
        exact ⟨h.1, invList_updateTaskRecursive sub updated h.2 hu⟩
      · simp only [hlen, if_false, invTask, Bool.and_eq_true]
        exact ⟨h.1, h.2⟩

end

/-- Claim C5 (amended): the in-app mutation paths — root toggle
(including the recurrence spawn), one-level subtask toggle, and the
dialog save routed through `updateTaskRecursive` — all re-establish
`completed == (status == "done")` at every node. -/
theorem completed_iff_done_enforced_by_mutations :
    (∀ (uuid : Nat → String) (now : Int) (id : String) (prev : List Task),
      invList prev = true → invList (toggleTask uuid now id prev) = true) ∧
    (∀ (pid sid : String) (tasks : List Task),
      invList tasks = true → invList (toggleSubTaskOf pid sid tasks) = true) ∧
    (∀ (prev : List Task) (t : Task) (ti de : String) (st : TaskStatus)
      (pr : TaskPriority) (lb : List String) (dd : Option Int)
      (ns : List TaskNote) (at2 : List TaskAttachment) (sub : List Task)
      (pj : Option String),
      invList prev = true → invList sub = true →
      invList
        (updateTaskRecursive prev
          (dialogSave t ti de st pr lb dd ns at2 sub pj)) = true) := by
  refine ⟨?_, ?_, ?_⟩
  · intro uuid now id prev h
    unfold toggleTask
    cases hfind : prev.find? (fun t => t.id == id) with
    | none => exact h
    | some taskToToggle =>
      have hmem : invTask taskToToggle = true :=
        invTask_of_mem prev taskToToggle h
          (List.mem_of_find?_eq_some hfind)
      by_cases hcond : (!taskToToggle.completed &&
          recurrenceActive taskToToggle.recurrence) = true
      · simp only [hcond, if_true]
        cases hrec : taskToToggle.recurrence with
        | none => exact h
        | some rec2 =>
          simp only [invList, invTask, Bool.and_eq_true]
          refine ⟨⟨rfl, ?_⟩, ?_⟩
          · apply invList_resetSubTasks
            cases taskToToggle with
            | mk id2 ti de st pr dd cp ns at2 sub pid dp ca pj lb rc =>
              simp only [invTask, Bool.and_eq_true] at hmem
              exact hmem.2
          · exact invList_map _
              (fun t ht => by
                by_cases hid : (t.id == id) = true
                · simp only [hid, if_true]
                  exact invTask_taskMarkDone t ht
                · simp only [hid, if_false, Bool.false_eq_true]
                  exact ht) prev h
      · simp only [hcond, if_false, Bool.false_eq_true]
        exact invList_map _
          (fun t ht => by
            by_cases hid : (t.id == id) = true
            · simp only [hid, if_true]
              exact invTask_taskToggleFlip t ht
            · simp only [hid, if_false, Bool.false_eq_true]
              exact ht) prev h
  · intro pid sid tasks h
    exact invList_map _
      (fun t ht => by
        by_cases hid : (t.id == pid) = true
        · simp only [hid, if_true]
          cases t with
          | mk id ti de st pr dd cp ns at2 sub pid2 dp ca pj lb rc =>
            simp only [invTask, Bool.and_eq_true] at ht
            simp only [setSubTasks, Task.subTasks, invTask,
              Bool.and_eq_true]
            refine ⟨ht.1, ?_⟩
            exact invList_map _
              (fun st2 hst => by
                by_cases hsid : (st2.id == sid) = true
                · simp only [hsid, if_true]
                  exact invTask_taskToggleFlip st2 hst
                · simp only [hsid, if_false, Bool.false_eq_true]
                  exact hst) sub ht.2
        · simp only [hid, if_false, Bool.false_eq_true]
          exact ht) tasks h
  · intro prev t ti de st pr lb dd ns at2 sub pj h hsub
    apply invList_updateTaskRecursive prev _ h
    simp [dialogSave, invTask, hsub]


/-! ## Import validation — `src/hooks/useTaskStorage.ts` lines 11–96
and 188–240

The zod schemas validate the value `deserializeTasks` produced (the
source then uses `parsed`, not the zod output, so the schema only
gates acceptance).  They are modelled as boolean checkers over
`JsVal`; `z.object` fails on anything that is not a plain object
(zod's `getParsedType` classifies `Date` instances as `"date"`), an
absent required field fails, `.optional()` fields may be absent, and
`.nullable()` admits `null`.  String length bounds use the string's
length. -/

/-- A string field bounded by `z.string().max(maxLen)`. -/
def strFieldCheck (fs : List (String × JsVal)) (k : String)
    (maxLen : Nat) : Bool :=
  match jsGetField fs k with
  | some (.str s) => s.length ≤ maxLen
  | _ => false

/-- A `.nullable()` string field. -/
def strOrNullFieldCheck (fs : List (String × JsVal)) (k : String)
    (maxLen : Nat) : Bool :=
  match jsGetField fs k with
  | some (.str s) => s.length ≤ maxLen
  | some .null => true
  | _ => false

/-- `z.date()` — a valid `Date` instance (zod rejects an Invalid
Date). -/
def zDateCheck : JsVal → Bool
  | .date (some _) => true
  | _ => false

/-- The tagged-object member of the date unions:
`z.object({__type: z.literal("Date"), value: z.string()})`. -/
def taggedDateCheck : JsVal → Bool
  | .obj fs =>
    (match jsGetField fs "__type" with
      | some (.str t) => t = "Date"
      | _ => false) &&
    (match jsGetField fs "value" with
      | some (.str _) => true
      | _ => false)
  | _ => false

/-- `z.union([z.date(), tagged])` on a required field. -/
def dateFieldCheck (fs : List (String × JsVal)) (k : String) : Bool :=
  match jsGetField fs k with
  | some v => zDateCheck v || taggedDateCheck v
  | none => false

/-- `z.union([z.date(), tagged, z.null()])` on a required field. -/
def dateOrNullFieldCheck (fs : List (String × JsVal)) (k : String) : Bool :=
  match jsGetField fs k with
  | some .null => true
  | some v => zDateCheck v || taggedDateCheck v
  | none => false

/-- taskAttachmentSchema from `useTaskStorage.ts` lines 11–18. -/
def attachmentCheck : JsVal → Bool
  | .obj fs =>
    strFieldCheck fs "id" 100 && strFieldCheck fs "name" 500 &&
    strFieldCheck fs "type" 100 && strFieldCheck fs "url" 10000 &&
    (match jsGetField fs "size" with
      | some (.num n) => 0 ≤ n
      | _ => false) &&
    dateFieldCheck fs "createdAt"
  | _ => false

/-- An array field bounded by `.max(maxN)` with elementwise check. -/
def arrayFieldCheck (p : JsVal → Bool) (fs : List (String × JsVal))
    (k : String) (maxN : Nat) : Bool :=
  match jsGetField fs k with
  | some (.arr l) => l.length ≤ maxN && l.all p
  | _ => false

/-- taskNoteSchema from `useTaskStorage.ts` lines 20–28. -/
def noteCheck : JsVal → Bool
  | .obj fs =>
    strFieldCheck fs "id" 100 && strFieldCheck fs "content" 10000 &&
    arrayFieldCheck attachmentCheck fs "attachments" 50 &&
    dateFieldCheck fs "createdAt" && dateFieldCheck fs "updatedAt" &&
    strFieldCheck fs "originTaskId" 100 &&
    strFieldCheck fs "originTaskTitle" 500
  | _ => false

/-- taskStatusSchema enumeration values. -/
def statusEnumCheck (s : String) : Bool :=
  s = "todo" || s = "in-progress" || s = "blocked" || s = "done"

/-- taskPrioritySchema enumeration values. -/
def priorityEnumCheck (s : String) : Bool :=
  s = "low" || s = "medium" || s = "high" || s = "urgent"

/-- recurrenceTypeSchema enumeration values. -/
def recurrenceEnumCheck (s : String) : Bool :=
  s = "none" || s = "daily" || s = "weekly" || s = "monthly"

/-- recurrenceConfigSchema (nullable, optional with default):
`{type: enum, interval: z.number().min(1).max(365)}`. -/
def recurrenceFieldCheck (fs : List (String × JsVal)) : Bool :=
  match jsGetField fs "recurrence" with
  | none => true
  | some .null => true
  | some (.obj rfs) =>
    (match jsGetField rfs "type" with
      | some (.str s) => recurrenceEnumCheck s
      | _ => false) &&
    (match jsGetField rfs "interval" with
      | some (.num n) => 1 ≤ n ∧ n ≤ 365
      | _ => false)
  | some _ => false

/-- The non-recursive conjuncts of baseTaskSchema
(`useTaskStorage.ts` lines 40–56). -/
def taskFieldsCheck (fs : List (String × JsVal)) : Bool :=
  strFieldCheck fs "id" 100 && strFieldCheck fs "title" 500 &&
  strFieldCheck fs "description" 10000 &&
  (match jsGetField fs "status" with
    | some (.str s) => statusEnumCheck s
    | _ => false) &&
  (match jsGetField fs "priority" with
    | none => true
    | some (.str s) => priorityEnumCheck s
    | some _ => false) &&
  dateOrNullFieldCheck fs "dueDate" &&
  (match jsGetField fs "completed" with
    | some (.bool _) => true
    | _ => false) &&
  arrayFieldCheck noteCheck fs "notes" 100 &&
  arrayFieldCheck attachmentCheck fs "attachments" 50 &&
  strOrNullFieldCheck fs "parentId" 100 &&
  (match jsGetField fs "depth" with
    | some (.num n) => 0 ≤ n ∧ n ≤ MAX_DEPTH
    | _ => false) &&
  dateFieldCheck fs "createdAt" &&
  strOrNullFieldCheck fs "projectId" 100 &&
  (match jsGetField fs "labelIds" with
    | none => true
    | some (.arr l) => l.length ≤ 20 &&
        l.all (fun v => match v with
          | .str s => s.length ≤ 100
          | _ => false)
    | some _ => false) &&
  recurrenceFieldCheck fs

mutual

/-- taskSchema (`useTaskStorage.ts` lines 59–61): the base fields plus
the recursive `subTasks: z.lazy(() => z.array(taskSchema).max(100))`. -/
def taskCheck : JsVal → Bool
  | .obj fs => taskFieldsCheck fs && subTasksFieldCheck fs
  | _ => false

/-- Locates the (first, hence only) `subTasks` property and checks it;
the field is required. -/
def subTasksFieldCheck : List (String × JsVal) → Bool
  | [] => false
  | (k, v) :: rest =>
    if k = "subTasks" then subTasksValCheck v else subTasksFieldCheck rest

/-- The `z.array(taskSchema).max(100)` value check. -/
def subTasksValCheck : JsVal → Bool
  | .arr l => decide (l.length ≤ 100) && taskListCheck l
  | _ => false

/-- Elementwise `taskCheck`. -/
def taskListCheck : List JsVal → Bool
  | [] => true
  | v :: rest => taskCheck v && taskListCheck rest

end

/-- tasksArraySchema (`useTaskStorage.ts` line 63). -/
def tasksArrayCheck : JsVal → Bool
  | .arr l => decide (l.length ≤ 1000) && taskListCheck l
  | _ => false

/-! ## enforceMaxDepth and sanitizeTask (`useTaskStorage.ts` lines
66–96) on the untyped parsed value

`importTasks` applies them to `parsed as Task[]` — the raw
deserialised value, not the zod output — so they are modelled on
`JsVal`.  `{ ...task, k: v }` keeps an existing property in place with
the new value and appends a missing one. -/

/-- JavaScript truthiness (no NaN in the integer number model). -/
def jsFalsy : JsVal → Bool
  | .null => true
  | .bool b => !b
  | .num n => n == 0
  | .str s => s == ""
  | _ => false

/-- `x || dflt` on a possibly absent property. -/
def jsOrDefault : Option JsVal → JsVal → JsVal
  | some v, dflt => if jsFalsy v then dflt else v
  | none, dflt => dflt

/-- Property override `{ ...obj, k: v }`: an existing key keeps its
position with the new value, a missing key is appended. -/
def setField (fs : List (String × JsVal)) (k : String) (v : JsVal) :
    List (String × JsVal) :=
  if fs.any (fun f => f.1 == k) then
    fs.map fun f => if f.1 == k then (f.1, v) else f
  else fs ++ [(k, v)]

mutual

/-- enforceMaxDepth (`useTaskStorage.ts` lines 87–96) over the parsed
array: every task's `depth` is overwritten with its actual nesting
depth, `priority`/`labelIds`/`recurrence` get `|| `-defaults, and
`subTasks` is recursed into below `MAX_DEPTH` and emptied at it. -/
def enforceMaxDepthList : List JsVal → Nat → List JsVal
  | [], _ => []
  | v :: rest, d => enforceMaxDepthTask v d :: enforceMaxDepthList rest d

/-- Per-task body of `enforceMaxDepth` (the spread with its five
overrides); a non-object input (unreachable behind the schema) is
returned unchanged. -/
def enforceMaxDepthTask : JsVal → Nat → JsVal
  | .obj fs, d =>
    .obj (setField (setField (setField (setField
      (enforceSubsInFields fs d)
      "depth" (.num d))
      "priority" (jsOrDefault (jsGetField fs "priority") (.str "medium")))
      "labelIds" (jsOrDefault (jsGetField fs "labelIds") (.arr [])))
      "recurrence" (jsOrDefault (jsGetField fs "recurrence") .null))
  | v, _ => v

/-- In-place transformation of the `subTasks` property:
`currentDepth < MAX_DEPTH ? enforceMaxDepth(task.subTasks, d+1) : []`. -/
def enforceSubsInFields : List (String × JsVal) → Nat → List (String × JsVal)
  | [], _ => []
  | (k, v) :: rest, d =>
    (k, if k = "subTasks" then enforceSubsVal v d else v) ::
      enforceSubsInFields rest d

/-- The new `subTasks` value: elementwise recursion below `MAX_DEPTH`,
the empty array at and beyond it (a non-array below `MAX_DEPTH`,
unreachable behind the schema, is passed through). -/
def enforceSubsVal : JsVal → Nat → JsVal
  | .arr l, d => if d < 3 then .arr (enforceMaxDepthList l (d + 1)) else .arr []
  | w, d => if d < 3 then w else .arr []

end

/-- String sanitisation of a property value (non-strings, unreachable
behind the schema, pass through). -/
def sanitizeStrVal (σ : String → String) : JsVal → JsVal
  | .str s => .str (σ s)
  | w => w

/-- Per-note sanitisation `{ ...note, content: σ(content),
originTaskTitle: σ(originTaskTitle) }`. -/
def sanitizeNoteFields (σ : String → String) :
    List (String × JsVal) → List (String × JsVal)
  | [] => []
  | (k, v) :: rest =>
    (k,
      if k = "content" || k = "originTaskTitle" then sanitizeStrVal σ v
      else v) :: sanitizeNoteFields σ rest

/-- The `notes.map(...)` of `sanitizeTask`. -/
def sanitizeNotesVal (σ : String → String) : JsVal → JsVal
  | .arr l => .arr (l.map fun v =>
      match v with
      | .obj nfs => .obj (sanitizeNoteFields σ nfs)
      | w => w)
  | w => w

mutual

/-- sanitizeTask (`useTaskStorage.ts` lines 74–84) over the parsed
value, with the `sanitizeString` regex replacements abstracted as the
string transformation `σ` — the claims settled here do not depend on
which characters it strips, only on which fields it is applied to. -/
def sanitizeTask (σ : String → String) : JsVal → JsVal
  | .obj fs => .obj (sanitizeFields σ fs)
  | v => v

/-- Field part of `sanitizeTask`: `title` and `description` pass
through `σ`, `notes` through the per-note sanitiser, `subTasks` is
recursed into; everything else is spread unchanged. -/
def sanitizeFields (σ : String → String) :
    List (String × JsVal) → List (String × JsVal)
  | [] => []
  | (k, v) :: rest =>
    (k,
      if k = "title" || k = "description" then sanitizeStrVal σ v
      else if k = "notes" then sanitizeNotesVal σ v
      else if k = "subTasks" then sanitizeSubsVal σ v
      else v) :: sanitizeFields σ rest

/-- Elementwise recursion of `sanitizeTask` into a `subTasks` array
value. -/
def sanitizeSubsVal (σ : String → String) : JsVal → JsVal
  | .arr l => .arr (sanitizeTaskList σ l)
  | w => w

/-- The `subTasks.map(sanitizeTask)`. -/
def sanitizeTaskList (σ : String → String) : List JsVal → List JsVal
  | [] => []
  | v :: rest => sanitizeTask σ v :: sanitizeTaskList σ rest

end

/-- MAX_IMPORT_FILE_SIZE from `useTaskStorage.ts` line 7 (10 MB). -/
def MAX_IMPORT_FILE_SIZE : Nat := 10485760

/-- importTasks (`useTaskStorage.ts` lines 188–240) as a function of
the file size, the file's JSON document and the sanitiser: the result
is the accepted forest (`none` leaves the in-memory forest untouched)
together with the toasts shown.  Oversized files and files failing the
schema are rejected wholesale. -/
def importTasks (σ : String → String) (fileSize : Nat)
    (fileContent : JsVal) : Option JsVal × List String :=
  if fileSize > MAX_IMPORT_FILE_SIZE then (none, ["File too large"])
  else
    let parsed := jsonParseRevive fileContent
    if tasksArrayCheck parsed then
      match parsed with
      | .arr l =>
        (some (.arr (sanitizeTaskList σ (enforceMaxDepthList l 0))),
          ["Import successful"])
      | _ => (none, ["Invalid file format"])
    else (none, ["Invalid file format"])


/-! ## Claim C7: depth-field violations are rejected wholesale -/

mutual

/-- A task-shaped value whose own `depth` property is 4, or that
carries one somewhere below its `subTasks` chain. -/
def hasDepth4Task : JsVal → Bool
  | .obj fs =>
    (match jsGetField fs "depth" with
      | some (.num n) => n == 4
      | _ => false) || hasDepth4InFields fs
  | _ => false

/-- Looks below the (first) `subTasks` property. -/
def hasDepth4InFields : List (String × JsVal) → Bool
  | [] => false
  | (k, v) :: rest =>
    if k = "subTasks" then hasDepth4SubsVal v else hasDepth4InFields rest

/-- Depth-4 search in a `subTasks` property value. -/
def hasDepth4SubsVal : JsVal → Bool
  | .arr l => hasDepth4TaskList l
  | _ => false

/-- Some member task has a depth-4 node. -/
def hasDepth4TaskList : List JsVal → Bool
  | [] => false
  | v :: rest => hasDepth4Task v || hasDepth4TaskList rest

end

/-- An import document containing a task whose `depth` field is 4. -/
def fileHasDepth4 : JsVal → Bool
  | .arr l => hasDepth4TaskList l
  | _ => false

/-- The reviver transforms object properties pointwise. -/
theorem jsGetField_revive :
    ∀ (fs : List (String × JsVal)) (k : String),
    jsGetField (jsonParseReviveFields fs) k =
      (jsGetField fs k).map jsonParseRevive
  | [], _ => rfl
  | (k2, v) :: rest, k => by
    simp only [jsonParseReviveFields, jsGetField]
    by_cases h : k2 = k
    · simp [h]
    · simp only [h, if_false]
      exact jsGetField_revive rest k

mutual

/-- A task carrying a depth-4 node fails the task schema after
parsing. -/
theorem taskCheck_false_of_hasDepth4 :
    ∀ (v : JsVal), hasDepth4Task v = true →
      taskCheck (jsonParseRevive v) = false
  | .obj fs, h => by
    simp only [hasDepth4Task, Bool.or_eq_true] at h
    have hcore : taskCheck (.obj (jsonParseReviveFields fs)) = false := by
      cases h with
      | inl hdep =>
        cases hget : jsGetField fs "depth" with
        | none => rw [hget] at hdep; simp at hdep
        | some dv =>
          rw [hget] at hdep
          cases dv with
          | num n =>
            simp only [beq_iff_eq] at hdep
            have h4 : jsGetField (jsonParseReviveFields fs) "depth" =
                some (.num n) := by
              rw [jsGetField_revive, hget]
              rfl
            simp [taskCheck, taskFieldsCheck, h4, hdep, MAX_DEPTH]
          | null => simp at hdep
          | bool b => simp at hdep
          | str s => simp at hdep
          | date m => simp at hdep
          | arr l => simp at hdep
          | obj fs2 => simp at hdep
      | inr hsub =>
        have := subTasksFieldCheck_false_of_hasDepth4 fs hsub
        simp [taskCheck, this]
    simp only [jsonParseRevive]
    unfold jsonReviverStep
    cases htype : jsGetField (jsonParseReviveFields fs) "__type" with
    | none =>
      simp only [htype]
      exact hcore
    | some tv =>
      cases tv with
      | str t =>
        by_cases ht : t = "Date"
        · simp [htype, ht, taskCheck]
        · simp only [htype, ht, if_false]
          exact hcore
      | null => simp only [htype]; exact hcore
      | bool b => simp only [htype]; exact hcore
      | num n => simp only [htype]; exact hcore
      | date m => simp only [htype]; exact hcore
      | arr l => simp only [htype]; exact hcore
      | obj l => simp only [htype]; exact hcore
termination_by v h => sizeOf v

/-- Field part of `taskCheck_false_of_hasDepth4`. -/
theorem subTasksFieldCheck_false_of_hasDepth4 :
    ∀ (fs : List (String × JsVal)), hasDepth4InFields fs = true →
      subTasksFieldCheck (jsonParseReviveFields fs) = false
  | (k, v) :: rest, h => by
    by_cases hk : k = "subTasks"
    · have hv : hasDepth4SubsVal v = true := by
        have h2 := h
        simp only [hasDepth4InFields, hk, if_true] at h2
        exact h2
      cases v with
      | arr l =>
        have hl : hasDepth4TaskList l = true := by
          simpa [hasDepth4SubsVal] using hv
        have hfalse := taskListCheck_false_of_hasDepth4 l hl
        simp [jsonParseReviveFields, subTasksFieldCheck, hk,
          jsonParseRevive, subTasksValCheck, hfalse]
      | null => simp [hasDepth4SubsVal] at hv
      | bool b => simp [hasDepth4SubsVal] at hv
      | num n => simp [hasDepth4SubsVal] at hv
      | str s => simp [hasDepth4SubsVal] at hv
      | date m => simp [hasDepth4SubsVal] at hv
      | obj fs2 => simp [hasDepth4SubsVal] at hv
    · have hr : hasDepth4InFields rest = true := by
        have h2 := h
        simp only [hasDepth4InFields, hk, if_false] at h2
        exact h2
      have hfalse := subTasksFieldCheck_false_of_hasDepth4 rest hr
      simp [jsonParseReviveFields, subTasksFieldCheck, hk, hfalse]
termination_by fs h => sizeOf fs

/-- List part of `taskCheck_false_of_hasDepth4`. -/
theorem taskListCheck_false_of_hasDepth4 :
    ∀ (l : List JsVal), hasDepth4TaskList l = true →
      taskListCheck (jsonParseReviveList l) = false
  | v :: rest, h => by
    simp only [hasDepth4TaskList, Bool.or_eq_true] at h
    simp only [jsonParseReviveList, taskListCheck]
    cases h with
    | inl hv => simp [taskCheck_false_of_hasDepth4 v hv]
    | inr hrest => simp [taskListCheck_false_of_hasDepth4 rest hrest]
termination_by l h => sizeOf l

end

/-- Claim C7: an import file containing a task whose `depth` field is
4 is rejected wholesale — `importTasks` returns no forest (the
in-memory state is left untouched) and shows a user-visible error
toast (the size error for oversized files, the format error
otherwise). -/
theorem importTasks_rejects_depth4 (σ : String → String)
    (fileSize : Nat) (file : JsVal) (h : fileHasDepth4 file = true) :
    (importTasks σ fileSize file).1 = none ∧
    ((importTasks σ fileSize file).2 = ["File too large"] ∨
      (importTasks σ fileSize file).2 = ["Invalid file format"]) := by
  unfold importTasks
  by_cases hsize : fileSize > MAX_IMPORT_FILE_SIZE
  · simp [hsize]
  · simp only [hsize, if_false]
    cases file with
    | arr l =>
      simp only [fileHasDepth4] at h
      have hfail : tasksArrayCheck (jsonParseRevive (.arr l)) = false := by
        simp [jsonParseRevive, tasksArrayCheck,
          taskListCheck_false_of_hasDepth4 l h]
      simp only [jsonParseRevive] at hfail
      simp [jsonParseRevive, hfail]
    | null => simp [fileHasDepth4] at h
    | bool b => simp [fileHasDepth4] at h
    | num n => simp [fileHasDepth4] at h
    | str s => simp [fileHasDepth4] at h
    | date m => simp [fileHasDepth4] at h
    | obj fs => simp [fileHasDepth4] at h

/-- A syntactically plausible import document whose single task claims
`depth` 4. -/
def c7File : JsVal :=
  .arr [.obj [("id", .str "a"), ("title", .str "bad"),
    ("description", .str ""), ("status", .str "todo"),
    ("dueDate", .null), ("completed", .bool false), ("notes", .arr []),
    ("attachments", .arr []), ("parentId", .null), ("depth", .num 4),
    ("createdAt", .obj [("__type", .str "Date"),
      ("value", .str "1970-01-01T00:00:00.000Z")]),
    ("projectId", .null), ("subTasks", .arr [])]]

/-- Witness for C7 at the concrete depth-4 document. -/
theorem importTasks_rejects_depth4_witness :
    fileHasDepth4 c7File = true ∧
    (importTasks (fun s => s) 100 c7File).1 = none ∧
    ((importTasks (fun s => s) 100 c7File).2 = ["File too large"] ∨
      (importTasks (fun s => s) 100 c7File).2 = ["Invalid file format"]) :=
  ⟨by decide,
    (importTasks_rejects_depth4 (fun s => s) 100 c7File (by decide)).1,
    (importTasks_rejects_depth4 (fun s => s) 100 c7File (by decide)).2⟩

/-- A schema-passing import document whose single task has
`completed: true` with `status: "todo"`. -/
def c5File : JsVal :=
  .arr [.obj [("id", .str "x"), ("title", .str "t"),
    ("description", .str ""), ("status", .str "todo"),
    ("dueDate", .null), ("completed", .bool true), ("notes", .arr []),
    ("attachments", .arr []), ("parentId", .null), ("depth", .num 0),
    ("createdAt", .obj [("__type", .str "Date"),
      ("value", .str "1970-01-01T00:00:00.000Z")]),
    ("projectId", .null), ("subTasks", .arr [])]]

/-- Counterexample to C5 as stated: the import path does not
re-establish `completed == (status == "done")`.  The zod schema checks
the two fields independently (`completed: z.boolean()`), so `c5File`
is accepted — and the accepted forest still carries `completed: true`
with `status: "todo"`.  The sanitiser only transforms strings, so this
holds for the real `sanitizeString` as it does for the identity used
here. -/
theorem import_accepts_completed_status_mismatch :
    (importTasks (fun s => s) 100 c5File).2 = ["Import successful"] ∧
    ((importTasks (fun s => s) 100 c5File).1.map
      (fun v => firstTaskField v "completed")) = some (some (.bool true)) ∧
    ((importTasks (fun s => s) 100 c5File).1.map
      (fun v => firstTaskField v "status")) = some (some (.str "todo")) := by
  decide


/-- Witness for C5 (amended): the three mutation paths applied to the
concrete invariant-satisfying forest `[c3Root]`. -/
theorem completed_iff_done_enforced_by_mutations_witness :
    invList (toggleTask c4uuid 0 "c3root" [c3Root]) = true ∧
    invList (toggleSubTaskOf "c3root" "c3child" [c3Root]) = true ∧
    invList
      (updateTaskRecursive [c3Root]
        (dialogSave c3Root "t2" "" .done .low [] none [] [] [] none)) =
      true :=
  ⟨completed_iff_done_enforced_by_mutations.1 c4uuid 0 "c3root" [c3Root]
      (by decide),
    completed_iff_done_enforced_by_mutations.2.1 "c3root" "c3child"
      [c3Root] (by decide),
    completed_iff_done_enforced_by_mutations.2.2 [c3Root] c3Root "t2" ""
      .done .low [] none [] [] [] none (by decide) (by decide)⟩

/-! ## The active view — `filteredTasks` of `src/unnamed/part_004`
(the project- and filter-enabled `Index.tsx`) lines 95–136 -/

/-- SortOption from `part_004` line 33. -/
inductive SortOption where
  | defaultOrder
  | priorityHigh
  | priorityLow
  | dateAsc
  | dateDesc
deriving DecidableEq, Repr

/-- PriorityFilter from `part_004` line 34 (`"all"` or one priority). -/
inductive PriorityFilter where
  | all
  | only (p : TaskPriority)
deriving DecidableEq, Repr

/-- Label filter (`"all"` or one label id). -/
inductive LabelFilter where
  | all
  | only (id : String)
deriving DecidableEq, Repr

/-- PRIORITY_ORDER from `part_004` lines 36–41. -/
def PRIORITY_ORDER : TaskPriority → Int
  | .urgent => 4
  | .high => 3
  | .medium => 2
  | .low => 1

/-- The sort comparator of `part_004` lines 113–132 (every task of the
typed forest carries a priority, so the `|| "medium"` guard is the
identity here). -/
def sortCompare : SortOption → Task → Task → Int
  | .priorityHigh, a, b => PRIORITY_ORDER b.priority - PRIORITY_ORDER a.priority
  | .priorityLow, a, b => PRIORITY_ORDER a.priority - PRIORITY_ORDER b.priority
  | .dateAsc, a, b =>
    match a.dueDate, b.dueDate with
    | none, none => 0
    | none, some _ => 1
    | some _, none => -1
    | some ta, some tb => ta - tb
  | .dateDesc, a, b =>
    match a.dueDate, b.dueDate with
    | none, none => 0
    | none, some _ => 1
    | some _, none => -1
    | some ta, some tb => tb - ta
  | .defaultOrder, _, _ => 0

/-- Stable insertion step: `a` (originally before the already sorted
part) goes in front of the first element it does not compare after. -/
def insertByCompare (cmp : Task → Task → Int) (a : Task) :
    List Task → List Task
  | [] => [a]
  | b :: rest =>
    if cmp a b ≤ 0 then a :: b :: rest else b :: insertByCompare cmp a rest

/-- JavaScript `Array.prototype.sort(cmp)` — stable since ES2019 —
modelled as a stable insertion sort. -/
def sortByCompare (cmp : Task → Task → Int) : List Task → List Task
  | [] => []
  | a :: rest => insertByCompare cmp a (sortByCompare cmp rest)

/-- filteredTasks from `part_004` lines 95–136: project filter,
priority filter, label filter, free-text search, then the optional
sort.  No step excludes completed tasks or fully completed trees. -/
def filteredTasks (tasks : List Task) (selectedProjectId : Option String)
    (priorityFilter : PriorityFilter) (labelFilter : LabelFilter)
    (searchQuery : String) (sortOption : SortOption) : List Task :=
  let projectTasks := tasks.filter fun t => t.projectId == selectedProjectId
  let projectTasks2 :=
    match priorityFilter with
    | .all => projectTasks
    | .only p => projectTasks.filter fun t => t.priority == p
  let projectTasks3 :=
    match labelFilter with
    | .all => projectTasks2
    | .only lid => projectTasks2.filter fun t => t.labelIds.contains lid
  let result := filterTasksBySearch projectTasks3 searchQuery
  match sortOption with
  | .defaultOrder => result
  | opt => sortByCompare (sortCompare opt) result

/-! ## Notebook entries — `buildNotebookEntries` of `Notebook.tsx`
lines 72–116

Each flattened task contributes a `task-`-prefixed entry followed by a
`note-`-prefixed entry per note; the final sort by creation time
reorders but never drops entries.  The ids of the entries in build
order: -/

/-- Entry ids produced by `buildNotebookEntries` before its
`createdAt` sort. -/
def buildNotebookEntryIds : List FlatTask → List String
  | [] => []
  | e :: rest =>
    ("task-" ++ e.task.id) ::
      (e.task.notes.map fun n => "note-" ++ n.id) ++
      buildNotebookEntryIds rest

/-- Completed subtask one of the failing forest. -/
def c2Sub1 : Task :=
  .mk "c2s1" "sub one" "" .done .medium none true [] [] []
    (some "c2root") 1 0 none [] none

/-- Completed subtask two of the failing forest. -/
def c2Sub2 : Task :=
  .mk "c2s2" "sub two" "" .done .medium none true [] [] []
    (some "c2root") 1 0 none [] none

/-- Fully completed root: itself and both subtasks are done. -/
def c2Root : Task :=
  .mk "c2root" "ship release" "" .done .medium none true [] []
    [c2Sub1, c2Sub2] none 0 0 none [] none

/-- Claim C2: the spec and the repository's own architecture guide
(`part_000`, "Auto-Archive Completed Trees": `isFullyCompleted()` in
the `filteredTasks` memo, "Fully completed trees disappear from main
view, remain in Notebook") require a fully completed root tree to be
excluded from the active view.  No version of `filteredTasks` contains
such logic: with no filters active, the fully completed `c2Root` (all
three nodes done) is still returned by the active view — while, as
documented, it does appear among the Notebook entries. -/
theorem filteredTasks_keeps_fully_completed_tree :
    invList [c2Root] = true ∧
    c2Root.completed = true ∧ c2Sub1.completed = true ∧
    c2Sub2.completed = true ∧
    filteredTasks [c2Root] none .all .all "" .defaultOrder = [c2Root] ∧
    buildNotebookEntryIds (flattenTasks [c2Root] none 0) =
      ["task-c2root", "task-c2s1", "task-c2s2"] :=
  ⟨rfl, rfl, rfl, rfl, rfl, rfl⟩


/-! ## Claim C10: the accepted import forest has recomputed depths,
truncated deep subtask lists, and `||`-defaults -/

/-- `setField` writes `k` and leaves every other key alone (mapped
branch). -/
theorem jsGetField_map_set (k : String) (v : JsVal) (k2 : String) :
    ∀ fs : List (String × JsVal),
      jsGetField (fs.map fun f => if f.1 == k then (f.1, v) else f) k2 =
        if k2 = k then (jsGetField fs k2).map (fun _ => v)
        else jsGetField fs k2
  | [] => by by_cases h : k2 = k <;> simp [jsGetField, h]
  | (k1, w) :: rest => by
    have ih := jsGetField_map_set k v k2 rest
    have hmap : (((k1, w) :: rest).map
        fun f => if f.1 == k then (f.1, v) else f) =
        (if (k1 == k) = true then (k1, v) else (k1, w)) ::
          (rest.map fun f => if f.1 == k then (f.1, v) else f) := rfl
    rw [hmap]
    by_cases h1 : k1 = k
    · rw [if_pos (beq_iff_eq.mpr h1)]
      by_cases h12 : k1 = k2
      · have h2 : k2 = k := h12 ▸ h1
        simp [jsGetField, h12, h2]
      · simp only [jsGetField, if_neg h12]
        exact ih
    · rw [if_neg (fun hbe => h1 (beq_iff_eq.mp hbe))]
      by_cases h12 : k1 = k2
      · have h2 : ¬k2 = k := fun hh => h1 (h12.trans hh)
        simp [jsGetField, h12, h2]
      · simp only [jsGetField, if_neg h12]
        exact ih

/-- Appending a fresh property is only seen at its own key, after the
existing keys. -/
theorem jsGetField_append_single (k : String) (v : JsVal) (k2 : String) :
    ∀ fs : List (String × JsVal),
      jsGetField (fs ++ [(k, v)]) k2 =
        (match jsGetField fs k2 with
          | some w => some w
          | none => if k2 = k then some v else none)
  | [] => by
    by_cases h : k2 = k
    · subst h; simp [jsGetField]
    · have h2 : ¬k = k2 := fun hh => h hh.symm
      simp [jsGetField, h, h2]
  | (k1, w) :: rest => by
    by_cases h1 : k1 = k2 <;>
      simp [jsGetField, h1, jsGetField_append_single k v k2 rest]

/-- A key matched by `List.any` is found by `jsGetField`. -/
theorem jsGetField_isSome_of_any (k : String) :
    ∀ fs : List (String × JsVal),
      fs.any (fun f => f.1 == k) = true → ∃ w, jsGetField fs k = some w
  | [], h => by simp at h
  | (k1, w) :: rest, h => by
    by_cases h1 : k1 = k
    · exact ⟨w, by simp [jsGetField, h1]⟩
    · simp only [List.any_cons, Bool.or_eq_true, beq_iff_eq] at h
      rcases h with h | h
      · exact absurd h h1
      · obtain ⟨w2, hw⟩ := jsGetField_isSome_of_any k rest h
        exact ⟨w2, by simp [jsGetField, h1, hw]⟩

/-- A key missed by `List.any` is absent. -/
theorem jsGetField_none_of_not_any (k : String) :
    ∀ fs : List (String × JsVal),
      fs.any (fun f => f.1 == k) = false → jsGetField fs k = none
  | [], _ => rfl
  | (k1, w) :: rest, h => by
    simp only [List.any_cons, Bool.or_eq_false_iff, beq_eq_false_iff_ne] at h
    simp [jsGetField, h.1, jsGetField_none_of_not_any k rest h.2]

/-- Reading back through a property override `{ ...obj, k: v }`. -/
theorem jsGetField_setField (fs : List (String × JsVal)) (k : String)
    (v : JsVal) (k2 : String) :
    jsGetField (setField fs k v) k2 =
      if k2 = k then some v else jsGetField fs k2 := by
  unfold setField
  by_cases hany : fs.any (fun f => f.1 == k) = true
  · rw [if_pos hany, jsGetField_map_set]
    by_cases h2 : k2 = k
    · subst h2
      obtain ⟨w, hw⟩ := jsGetField_isSome_of_any k2 fs hany
      simp [hw]
    · simp [h2]
  · rw [if_neg hany, jsGetField_append_single]
    have hnone := jsGetField_none_of_not_any k fs
      (Bool.eq_false_iff.mpr hany)
    by_cases h2 : k2 = k
    · subst h2; simp [hnone]
    · cases hg : jsGetField fs k2 <;> simp [hg, h2]

/-- `enforceMaxDepth`'s field pass only rewrites the `subTasks`
property. -/
theorem jsGetField_enforceSubs (d : Nat) (k : String) :
    ∀ fs : List (String × JsVal),
      jsGetField (enforceSubsInFields fs d) k =
        if k = "subTasks" then
          (jsGetField fs k).map (fun v => enforceSubsVal v d)
        else jsGetField fs k
  | [] => by by_cases h : k = "subTasks" <;> simp [enforceSubsInFields, jsGetField, h]
  | (k1, v) :: rest => by
    have ih := jsGetField_enforceSubs d k rest
    by_cases h1 : k1 = k <;> by_cases hs : k = "subTasks" <;>
      simp_all [enforceSubsInFields, jsGetField, h1, hs]

/-- `sanitizeTask`'s field pass leaves every key other than `title`,
`description`, `notes` and `subTasks` untouched. -/
theorem jsGetField_sanitizeFields_ne (σ : String → String) (k : String)
    (h1 : k ≠ "title") (h2 : k ≠ "description") (h3 : k ≠ "notes")
    (h4 : k ≠ "subTasks") :
    ∀ fs : List (String × JsVal),
      jsGetField (sanitizeFields σ fs) k = jsGetField fs k
  | [] => rfl
  | (k1, v) :: rest => by
    have ih := jsGetField_sanitizeFields_ne σ k h1 h2 h3 h4 rest
    by_cases hk : k1 = k
    · subst hk; simp [sanitizeFields, jsGetField, h1, h2, h3, h4]
    · simp [sanitizeFields, jsGetField, hk, ih]

/-- `sanitizeTask`'s field pass maps the `subTasks` property through
the elementwise sanitiser. -/
theorem jsGetField_sanitizeFields_subTasks (σ : String → String) :
    ∀ fs : List (String × JsVal),
      jsGetField (sanitizeFields σ fs) "subTasks" =
        (jsGetField fs "subTasks").map (sanitizeSubsVal σ)
  | [] => rfl
  | (k1, v) :: rest => by
    have ih := jsGetField_sanitizeFields_subTasks σ rest
    by_cases hk : k1 = "subTasks"
    · subst hk; simp [sanitizeFields, jsGetField]
    · simp [sanitizeFields, jsGetField, hk, ih]

/-- The `depth` property holds exactly the Nat `d`. -/
def depthFieldIs (fs : List (String × JsVal)) (d : Nat) : Bool :=
  match jsGetField fs "depth" with
  | some (.num n) => n == (d : Int)
  | _ => false

mutual

/-- A task object whose stored `depth` equals its actual nesting depth
`d`, recursively below its `subTasks`, with the subtask list empty
from `MAX_DEPTH` on. -/
def depthsCorrectTask : JsVal → Nat → Bool
  | .obj fs, d => depthFieldIs fs d && depthsCorrectFields fs d
  | _, _ => false

/-- Field walk to the (first, hence only) `subTasks` property. -/
def depthsCorrectFields : List (String × JsVal) → Nat → Bool
  | [], _ => false
  | (k, v) :: rest, d =>
    if k = "subTasks" then depthsCorrectSubsVal v d
    else depthsCorrectFields rest d

/-- The `subTasks` value of a task at depth `d`: an array, empty
unless `d < MAX_DEPTH`, of tasks correct at depth `d + 1`. -/
def depthsCorrectSubsVal : JsVal → Nat → Bool
  | .arr l, d => (decide (d < 3) || l.isEmpty) && depthsCorrectTaskList l (d + 1)
  | _, _ => false

/-- Elementwise `depthsCorrectTask`. -/
def depthsCorrectTaskList : List JsVal → Nat → Bool
  | [], _ => true
  | v :: rest, d => depthsCorrectTask v d && depthsCorrectTaskList rest d

end

/-- A forest value whose root tasks are at depth 0 with all stored
depths matching the nesting structure. -/
def depthsCorrectForest : JsVal → Bool
  | .arr l => depthsCorrectTaskList l 0
  | _ => false

/-- The property list of an object value. -/
def jsObjFields : JsVal → List (String × JsVal)
  | .obj fs => fs
  | _ => []

/-- `depthsCorrectFields` reads the first `subTasks` property, i.e.
the one `jsGetField` sees. -/
theorem depthsCorrectFields_getField (d : Nat) :
    ∀ fs : List (String × JsVal),
      depthsCorrectFields fs d =
        (match jsGetField fs "subTasks" with
          | some v => depthsCorrectSubsVal v d
          | none => false)
  | [] => rfl
  | (k1, v) :: rest => by
    by_cases hk : k1 = "subTasks" <;>
      simp [depthsCorrectFields, jsGetField, hk,
        depthsCorrectFields_getField d rest]

/-- `subTasksFieldCheck` likewise checks the property `jsGetField`
sees. -/
theorem subTasksFieldCheck_getField :
    ∀ fs : List (String × JsVal),
      subTasksFieldCheck fs =
        (match jsGetField fs "subTasks" with
          | some v => subTasksValCheck v
          | none => false)
  | [] => rfl
  | (k1, v) :: rest => by
    by_cases hk : k1 = "subTasks" <;>
      simp [subTasksFieldCheck, jsGetField, hk,
        subTasksFieldCheck_getField rest]

mutual

/-- Any schema-passing task list comes out of
`sanitizeTask ∘ enforceMaxDepth` with every stored depth equal to the
nesting depth and deep subtask lists emptied. -/
theorem depthsCorrect_sanitize_enforce_list (σ : String → String) :
    ∀ (l : List JsVal) (d : Nat), taskListCheck l = true →
      depthsCorrectTaskList (sanitizeTaskList σ (enforceMaxDepthList l d)) d =
        true
  | [], _, _ => rfl
  | v :: rest, d, h => by
    simp only [taskListCheck, Bool.and_eq_true] at h
    simp only [enforceMaxDepthList, sanitizeTaskList, depthsCorrectTaskList,
      Bool.and_eq_true]
    exact ⟨depthsCorrect_sanitize_enforce_task σ v d h.1,
      depthsCorrect_sanitize_enforce_list σ rest d h.2⟩

/-- Task part of `depthsCorrect_sanitize_enforce_list`. -/
theorem depthsCorrect_sanitize_enforce_task (σ : String → String) :
    ∀ (v : JsVal) (d : Nat), taskCheck v = true →
      depthsCorrectTask (sanitizeTask σ (enforceMaxDepthTask v d)) d = true
  | .obj fs, d, h => by
    simp only [taskCheck, Bool.and_eq_true] at h
    have hwalk := depthsCorrect_sanitize_enforce_fields σ fs d h.2
    simp only [enforceMaxDepthTask, sanitizeTask, depthsCorrectTask,
      Bool.and_eq_true]
    constructor
    · simp [depthFieldIs,
        jsGetField_sanitizeFields_ne σ "depth" (by decide) (by decide)
          (by decide) (by decide),
        jsGetField_setField]
    · rw [depthsCorrectFields_getField, jsGetField_sanitizeFields_subTasks]
      simp only [jsGetField_setField, jsGetField_enforceSubs]
      revert hwalk
      cases hg : jsGetField fs "subTasks" with
      | none => intro hwalk; simp at hwalk
      | some w => intro hwalk; simpa using hwalk

/-- Field part: the checked `subTasks` value survives the enforce and
sanitise passes depth-correct. -/
theorem depthsCorrect_sanitize_enforce_fields (σ : String → String) :
    ∀ (fs : List (String × JsVal)) (d : Nat), subTasksFieldCheck fs = true →
      (match jsGetField fs "subTasks" with
        | some w => depthsCorrectSubsVal (sanitizeSubsVal σ (enforceSubsVal w d)) d
        | none => false) = true
  | [], _, h => by simp [subTasksFieldCheck] at h
  | (k, v) :: rest, d, h => by
    by_cases hk : k = "subTasks"
    · subst hk
      simp only [subTasksFieldCheck, if_true, eq_self_iff_true] at h
      simp only [jsGetField, if_true, eq_self_iff_true]
      cases v with
      | arr l =>
        simp only [subTasksValCheck, Bool.and_eq_true,
          decide_eq_true_eq] at h
        by_cases hd : d < 3
        · rw [show enforceSubsVal (.arr l) d =
              if d < 3 then .arr (enforceMaxDepthList l (d + 1))
              else .arr [] from rfl, if_pos hd]
          show depthsCorrectSubsVal
            (.arr (sanitizeTaskList σ (enforceMaxDepthList l (d + 1)))) d = true
          simp only [depthsCorrectSubsVal, Bool.and_eq_true]
          exact ⟨by simp [hd],
            depthsCorrect_sanitize_enforce_list σ l (d + 1) h.2⟩
        · rw [show enforceSubsVal (.arr l) d =
              if d < 3 then .arr (enforceMaxDepthList l (d + 1))
              else .arr [] from rfl, if_neg hd]
          show depthsCorrectSubsVal (.arr (sanitizeTaskList σ [])) d = true
          simp [depthsCorrectSubsVal, sanitizeTaskList, depthsCorrectTaskList]
      | null => simp [subTasksValCheck] at h
      | bool b => simp [subTasksValCheck] at h
      | num n => simp [subTasksValCheck] at h
      | str s => simp [subTasksValCheck] at h
      | date m => simp [subTasksValCheck] at h
      | obj fs2 => simp [subTasksValCheck] at h
    · simp only [subTasksFieldCheck, if_neg hk] at h
      simp only [jsGetField, if_neg hk]
      exact depthsCorrect_sanitize_enforce_fields σ rest d h

end

/-- Claim C10: a schema-passing import comes out with every stored
depth recomputed from the nesting position (roots 0, children
parent + 1), subtask lists at `MAX_DEPTH` silently emptied rather than
rejected (1); `enforceMaxDepth` overwrites `depth` and fills
`priority`/`labelIds`/`recurrence` with the `||`-defaults `"medium"`,
`[]` and `null` (2); and the subsequent sanitisation leaves all those
fields untouched (3). -/
theorem importTasks_normalizes_depth_and_defaults :
    (∀ (σ : String → String) (fileSize : Nat) (file out : JsVal),
      (importTasks σ fileSize file).1 = some out →
      depthsCorrectForest out = true) ∧
    (∀ (fs : List (String × JsVal)) (d : Nat),
      jsGetField (jsObjFields (enforceMaxDepthTask (.obj fs) d)) "depth" =
        some (.num d) ∧
      jsGetField (jsObjFields (enforceMaxDepthTask (.obj fs) d)) "priority" =
        some (jsOrDefault (jsGetField fs "priority") (.str "medium")) ∧
      jsGetField (jsObjFields (enforceMaxDepthTask (.obj fs) d)) "labelIds" =
        some (jsOrDefault (jsGetField fs "labelIds") (.arr [])) ∧
      jsGetField (jsObjFields (enforceMaxDepthTask (.obj fs) d)) "recurrence" =
        some (jsOrDefault (jsGetField fs "recurrence") .null)) ∧
    (∀ (σ : String → String) (k : String) (fs : List (String × JsVal)),
      k ≠ "title" → k ≠ "description" → k ≠ "notes" → k ≠ "subTasks" →
      jsGetField (sanitizeFields σ fs) k = jsGetField fs k) := by
  refine ⟨?_, ?_, ?_⟩
  · intro σ fileSize file out h
    simp only [importTasks] at h
    by_cases hsz : fileSize > MAX_IMPORT_FILE_SIZE
    · rw [if_pos hsz] at h
      simp at h
    · rw [if_neg hsz] at h
      by_cases hchk : tasksArrayCheck (jsonParseRevive file) = true
      · rw [if_pos hchk] at h
        cases hp : jsonParseRevive file with
        | arr l =>
          rw [hp] at h hchk
          simp only [tasksArrayCheck, Bool.and_eq_true] at hchk
          simp only [Option.some.injEq] at h
          rw [← h]
          simp only [depthsCorrectForest]
          exact depthsCorrect_sanitize_enforce_list σ l 0 hchk.2
        | null => rw [hp] at h; simp at h
        | bool b => rw [hp] at h; simp at h
        | num n => rw [hp] at h; simp at h
        | str s => rw [hp] at h; simp at h
        | date m => rw [hp] at h; simp at h
        | obj fs => rw [hp] at h; simp at h
      · rw [if_neg hchk] at h
        simp at h
  · intro fs d
    refine ⟨?_, ?_, ?_, ?_⟩ <;>
      simp [enforceMaxDepthTask, jsObjFields, jsGetField_setField]
  · exact fun σ k fs h1 h2 h3 h4 =>
      jsGetField_sanitizeFields_ne σ k h1 h2 h3 h4 fs

/-- The fields of a plausible import root whose stored `depth` lies
(schema-valid 3 instead of 0), whose `priority`/`labelIds`/`recurrence`
are missing, and whose chain of subtasks reaches nesting depth 4 with
equally wrong stored depths. -/
def c10RootFields : List (String × JsVal) :=
  [("id", .str "r"), ("title", .str "Root"), ("description", .str ""),
    ("status", .str "todo"), ("dueDate", .null),
    ("completed", .bool false), ("notes", .arr []),
    ("attachments", .arr []), ("parentId", .null), ("depth", .num 3),
    ("createdAt", .obj [("__type", .str "Date"),
      ("value", .str "1970-01-01T00:00:00.000Z")]),
    ("projectId", .null),
    ("subTasks", .arr [.obj
      [("id", .str "c"), ("title", .str "Child"), ("description", .str ""),
        ("status", .str "todo"), ("dueDate", .null),
        ("completed", .bool false), ("notes", .arr []),
        ("attachments", .arr []), ("parentId", .str "r"),
        ("depth", .num 0),
        ("createdAt", .obj [("__type", .str "Date"),
          ("value", .str "1970-01-01T00:00:00.000Z")]),
        ("projectId", .null),
        ("subTasks", .arr [.obj
          [("id", .str "g"), ("title", .str "Grand"),
            ("description", .str ""), ("status", .str "todo"),
            ("dueDate", .null), ("completed", .bool false),
            ("notes", .arr []), ("attachments", .arr []),
            ("parentId", .str "c"), ("depth", .num 1),
            ("createdAt", .obj [("__type", .str "Date"),
              ("value", .str "1970-01-01T00:00:00.000Z")]),
            ("projectId", .null),
            ("subTasks", .arr [.obj
              [("id", .str "gg"), ("title", .str "GreatGrand"),
                ("description", .str ""), ("status", .str "todo"),
                ("dueDate", .null), ("completed", .bool false),
                ("notes", .arr []), ("attachments", .arr []),
                ("parentId", .str "g"), ("depth", .num 2),
                ("createdAt", .obj [("__type", .str "Date"),
                  ("value", .str "1970-01-01T00:00:00.000Z")]),
                ("projectId", .null),
                ("subTasks", .arr [.obj
                  [("id", .str "ggg"), ("title", .str "TooDeep"),
                    ("description", .str ""), ("status", .str "todo"),
                    ("dueDate", .null), ("completed", .bool false),
                    ("notes", .arr []), ("attachments", .arr []),
                    ("parentId", .str "gg"), ("depth", .num 0),
                    ("createdAt", .obj [("__type", .str "Date"),
                      ("value", .str "1970-01-01T00:00:00.000Z")]),
                    ("projectId", .null),
                    ("subTasks", .arr [])]])]])]])]])]

/-- The wrong-depths import document. -/
def c10File : JsVal := .arr [.obj c10RootFields]

/-- The forest `importTasks` accepts from `c10File`. -/
def c10Out : JsVal :=
  .arr (sanitizeTaskList (fun s => s)
    (enforceMaxDepthList (jsonParseReviveList [.obj c10RootFields]) 0))

/-- Witness for C10 at `c10File`: the file is accepted and its output
is depth-correct (stored depths 0,1,2,3 despite the lying input and
the depth-4 chain truncated); the root's missing `priority` becomes
the `||`-default; and sanitisation preserves an untouched field such
as `dueDate`. -/
theorem importTasks_normalizes_depth_and_defaults_witness :
    depthsCorrectForest c10Out = true ∧
    jsGetField (jsObjFields (enforceMaxDepthTask (.obj c10RootFields) 0))
      "priority" =
      some (jsOrDefault (jsGetField c10RootFields "priority")
        (.str "medium")) ∧
    jsGetField (sanitizeFields (fun s => s) c10RootFields) "dueDate" =
      jsGetField c10RootFields "dueDate" :=
  ⟨importTasks_normalizes_depth_and_defaults.1 (fun s => s) 100 c10File
      c10Out (by decide),
    (importTasks_normalizes_depth_and_defaults.2.1 c10RootFields 0).2.1,
    importTasks_normalizes_depth_and_defaults.2.2 (fun s => s) "dueDate"
      c10RootFields (by decide) (by decide) (by decide) (by decide)⟩

end DailyTasks
